import Mathlib

/-!
Verification of the file-upload subsystem of the `bot` repository.

The Python sources under `src/` are shallowly embedded here:
  * `helpers.py`   — `human_readable_size`, `build_preview_payload`;
  * `file_index.py`— `load_index` / `save_index` (JSON document round trip);
  * `web_server.py`— the `handle_upload`, `handle_get_file`,
    `handle_file_info` and `handle_delete` request handlers.

Python dicts are modelled as association lists with string keys, the
upload directory as an association list from file name to byte content,
and the streamed multipart body as the list of chunks returned by
successive `read_chunk` calls.  Cancellation of the surrounding request
can be delivered at any `await` point of `handle_upload`; those points
are the successive `read_chunk` calls and the final `field.release()`
call, and are modelled explicitly by `CancelPoint`.
-/

namespace BotSpec

/-! ### Association lists modelling Python dicts -/

/-- `d.get(k)` on a string-keyed dict modelled as an association list. -/
def alookup {α : Type} (m : List (String × α)) (k : String) : Option α :=
  match m with
  | [] => none
  | (k', v) :: rest => if k' = k then some v else alookup rest k

/-- `d[k] = v`: update the binding of `k` in place, else append it. -/
def setKey {α : Type} (m : List (String × α)) (k : String) (v : α) :
    List (String × α) :=
  match m with
  | [] => [(k, v)]
  | (k', v') :: rest =>
    if k' = k then (k, v) :: rest else (k', v') :: setKey rest k v

/-- `del d[k]` (and `unlink(missing_ok=True)`): drop the binding of `k`. -/
def delKey {α : Type} (m : List (String × α)) (k : String) :
    List (String × α) :=
  match m with
  | [] => []
  | (k', v') :: rest =>
    if k' = k then delKey rest k else (k', v') :: delKey rest k

/-! ### `helpers.human_readable_size`

The Python function converts the byte count to a float and repeatedly
divides by 1024.  All intermediate values are of the form `n / 1024^k`,
which binary floating point represents exactly for `n < 2^53`, and
`f"{x:.2f}"` rounds the exact value to two decimals with ties to even;
the model therefore tracks the value as the exact pair
(numerator `num`, denominator `den = 1024^k`). -/

/-- Round `num / den` to the nearest integer, ties to even
(the rounding used by Python float formatting on exactly
represented values). -/
def roundHalfEven (num den : Nat) : Nat :=
  let q := num / den
  let r := num % den
  if den < 2 * r then q + 1
  else if 2 * r < den then q
  else if q % 2 = 0 then q else q + 1

/-- `f"{num/den:.2f}"`: two-decimal rendering of the exact value. -/
def fmtTwoDec (num den : Nat) : String :=
  let c := roundHalfEven (100 * num) den
  toString (c / 100) ++ "." ++
    (if c % 100 < 10 then "0" else "") ++ toString (c % 100)

/-- The unit loop of `human_readable_size`: `num / den` is the current
float value; `units` the remaining unit names. -/
def hrsGo (num den : Nat) : List String → String
  | [] => fmtTwoDec num den ++ " TB"
  | unit :: rest =>
    if num < 1024 * den ∨ rest = [] then
      if unit = "B" then toString (num / den) ++ " B"
      else fmtTwoDec num den ++ " " ++ unit
    else hrsGo num (den * 1024) rest

/-- `helpers.human_readable_size`. -/
def human_readable_size (size : Nat) : String :=
  hrsGo size 1 [("B"), ("KB"), ("MB"), ("GB"), ("TB")]

/-! ### `helpers.build_preview_payload` -/

def IMAGE_EXTENSIONS : List String :=
  [(".png"), (".jpg"), (".jpeg"), (".gif"), (".bmp"), (".webp")]

def VIDEO_EXTENSIONS : List String :=
  [(".mp4"), (".webm"), (".mov"), (".mkv"), (".avi")]

def AUDIO_EXTENSIONS : List String :=
  [(".mp3"), (".wav"), (".ogg"), (".m4a"), (".aac"), (".flac")]

def TEXT_EXTENSIONS : List String :=
  [(".txt"), (".md"), (".log"), (".json"), (".csv"), (".py"), (".js"),
   (".ts"), (".html"), (".css"), (".yaml"), (".yml"), (".ini"), (".cfg")]

/-- Python truthiness of the `mime_type` optional string
(`None` and `""` are falsy). -/
def mimeTruthy (m : Option String) : Bool :=
  match m with
  | some s => s ≠ ""
  | none => false

/-- `mime_type.startswith(p)` guarded by presence (`startswith` is the
character-prefix test). -/
def mimeStarts (m : Option String) (p : String) : Bool :=
  match m with
  | some s => p.data.isPrefixOf s.data
  | none => false

/-- The preview classification result (`{"kind": ...}` payload).
The `text` case carries the snippet and the `truncated` flag. -/
inductive PreviewKind where
  | image
  | video
  | audio
  | pdf
  | text (snippet : List Char) (truncated : Bool)
  | none
deriving DecidableEq, Repr

/-- Rule 1 guard: `(mime_type and mime_type.startswith("image/")) or
(file_ext in IMAGE_EXTENSIONS)`. -/
def image_cond (ext : String) (m : Option String) : Bool :=
  (mimeTruthy m && mimeStarts m ("image/")) || IMAGE_EXTENSIONS.contains ext

/-- Rule 2 guard, for `video/` and the video extension set. -/
def video_cond (ext : String) (m : Option String) : Bool :=
  (mimeTruthy m && mimeStarts m ("video/")) || VIDEO_EXTENSIONS.contains ext

/-- Rule 3 guard, for `audio/` and the audio extension set. -/
def audio_cond (ext : String) (m : Option String) : Bool :=
  (mimeTruthy m && mimeStarts m ("audio/")) || AUDIO_EXTENSIONS.contains ext

/-- Rule 4 guard: `mime_type == "application/pdf" or file_ext == ".pdf"`. -/
def pdf_cond (ext : String) (m : Option String) : Bool :=
  (m == some ("application/pdf")) || (ext == (".pdf"))

/-- Rule 5 guard: `mime_type and (mime_type.startswith("text/") or
mime_type == "application/json") or file_ext in TEXT_EXTENSIONS`. -/
def text_cond (ext : String) (m : Option String) : Bool :=
  (mimeTruthy m &&
    (mimeStarts m ("text/") || m == some ("application/json"))) ||
  TEXT_EXTENSIONS.contains ext

/-- The body of `build_preview_payload` after the extension has been
computed.  `content` is the lossily decoded text of the file:
`none` when opening or reading the file raises (the `except` branch sets
the snippet to `""`), `some cs` the decoded characters otherwise.  The
text rule reads the first 4000 characters and probes one more
(`f.read(4000)` then `f.read(1)`). -/
def classify_ext (content : Option (List Char)) (fileExt : String)
    (m : Option String) : PreviewKind :=
  if image_cond fileExt m then PreviewKind.image
  else if video_cond fileExt m then PreviewKind.video
  else if audio_cond fileExt m then PreviewKind.audio
  else if pdf_cond fileExt m then PreviewKind.pdf
  else if text_cond fileExt m then
    let snippet := match content with
      | some cs => cs.take 4000
      | Option.none => []
    let hasMore := match content with
      | some cs => decide (4000 < cs.length)
      | Option.none => false
    if snippet ≠ [] then PreviewKind.text snippet hasMore
    else PreviewKind.none
  else PreviewKind.none

/-- Index of the last `'.'` in a list of characters, if any. -/
def lastDotIdx (cs : List Char) : Option Nat :=
  ((List.range cs.length).filter (fun i => cs.getD i ' ' = '.')).getLast?

/-- `pathlib.PurePath(filename).suffix` for a plain file name (no
directory separators): the extension from the last dot `i` when
`0 < i < len(name) - 1`, else empty. -/
def path_suffix (filename : String) : String :=
  let cs := filename.data
  match lastDotIdx cs with
  | some i =>
    if 0 < i ∧ i + 1 < cs.length then String.mk (cs.drop i) else ""
  | none => ""

/-- `helpers.build_preview_payload`: computes
`file_ext = Path(filename).suffix.lower()` (ASCII lowering) and
classifies.  `content` is the decoded file text as in `classify_ext`. -/
def build_preview_payload (content : Option (List Char))
    (filename : String) (m : Option String) : PreviewKind :=
  classify_ext content
    (String.mk ((path_suffix filename).data.map Char.toLower)) m

/-! ### Data model (`web_server.py` / spec §3) -/

/-- One index entry (`index[token] = {...}` in `handle_upload`). -/
structure FileRecord where
  filename : String
  saved_name : String
  size : Nat
  timestamp : Nat
  ip : String
  uploader : String
deriving DecidableEq, Repr

/-- The JSON index document: token → record. -/
abbrev Index := List (String × FileRecord)

/-- The upload directory: saved file name → byte content. -/
abbrev Disk := List (String × List Nat)

/-- Shared mutable state of the upload service: the index file and the
upload directory. -/
structure ServerState where
  index : Index
  disk : Disk
deriving DecidableEq, Repr

/-- `sum(meta.get("size", 0) for meta in index.values() if
meta.get("ip") == client_ip)` — per-IP usage. -/
def usage_for (ip : String) (index : Index) : Nat :=
  match index with
  | [] => 0
  | (_, r) :: rest => (if r.ip = ip then r.size else 0) + usage_for ip rest

/-! ### `web_server.handle_upload` -/

/-- The `await` points of `handle_upload` at which request cancellation
can be delivered: the `k`-th `field.read_chunk()` call (0-based), or the
`field.release()` call that runs after the stream has completed. -/
inductive CancelPoint where
  | read (k : Nat)
  | release
deriving DecidableEq, Repr

/-- The quota-rejection JSON body fields (besides the fixed Japanese
`error` message): configured limit, current usage, remaining quota. -/
structure QuotaResp where
  limit : String
  used : String
  remaining : String
deriving DecidableEq, Repr

/-- Outcome of `handle_upload`. -/
inductive UploadResult where
  | preflightRejected (resp : QuotaResp)
  | quotaRejected (resp : QuotaResp)
  | cancelled
  | completed (token : String)
deriving DecidableEq, Repr

/-- HTTP status of each upload outcome (`cancelled` produces no
response: the CancelledError propagates). -/
def upload_status : UploadResult → Option Nat
  | UploadResult.preflightRejected _ => some 400
  | UploadResult.quotaRejected _ => some 400
  | UploadResult.cancelled => none
  | UploadResult.completed _ => some 200

/-- How the `while True` chunk loop exits. -/
inductive StreamExit where
  | completed
  | quotaHit
  | cancelledRead
deriving DecidableEq, Repr

/-- The chunk loop of `handle_upload`: reads chunks, writes them, and
checks the quota after each write (`if quota_limit > 0 and
(current_usage + size) > quota_limit`).  `readIdx` counts `read_chunk`
calls so far, `size` the bytes written so far.  Returns the bytes
written from this point on, the final `size`, and the exit kind. -/
def stream (Q usage : Nat) (cancel : Option CancelPoint) :
    List (List Nat) → Nat → Nat → List Nat × Nat × StreamExit
  | [], readIdx, size =>
    if cancel = some (CancelPoint.read readIdx) then
      ([], size, StreamExit.cancelledRead)
    else ([], size, StreamExit.completed)
  | chunk :: rest, readIdx, size =>
    if cancel = some (CancelPoint.read readIdx) then
      ([], size, StreamExit.cancelledRead)
    else if chunk = [] then ([], size, StreamExit.completed)
    else
      let size' := size + chunk.length
      if 0 < Q ∧ Q < usage + size' then (chunk, size', StreamExit.quotaHit)
      else
        let r := stream Q usage cancel rest (readIdx + 1) size'
        (chunk ++ r.1, r.2.1, r.2.2)

/-- `web_server.handle_upload` for a well-formed multipart request whose
`file` field streams `chunks`.  `Q` is `MAX_IP_STORAGE_BYTES`
(`0` = unlimited), `token` the fresh `uuid4().hex`, `ts` the commit
time.  On a read-point cancellation or a mid-stream quota hit the
partial file is unlinked; on a release-point cancellation the completed
file stays on disk but no index entry is committed; otherwise the
record is committed to the index after the write. -/
def handle_upload (Q : Nat) (client_ip token filename : String) (ts : Nat)
    (chunks : List (List Nat)) (cancel : Option CancelPoint)
    (st : ServerState) : UploadResult × ServerState :=
  let saved_name := token ++ "-" ++ filename
  let current_usage := if 0 < Q then usage_for client_ip st.index else 0
  if 0 < Q ∧ Q ≤ current_usage then
    (UploadResult.preflightRejected
      ⟨human_readable_size Q, human_readable_size current_usage, ("0 B")⟩,
     st)
  else
    let r := stream Q current_usage cancel chunks 0 0
    match r.2.2 with
    | StreamExit.cancelledRead =>
      (UploadResult.cancelled, ⟨st.index, delKey st.disk saved_name⟩)
    | StreamExit.quotaHit =>
      (UploadResult.quotaRejected
        ⟨human_readable_size Q, human_readable_size current_usage,
         human_readable_size (Q - current_usage)⟩,
       ⟨st.index, delKey st.disk saved_name⟩)
    | StreamExit.completed =>
      if cancel = some CancelPoint.release then
        (UploadResult.cancelled, ⟨st.index, setKey st.disk saved_name r.1⟩)
      else
        (UploadResult.completed token,
         ⟨setKey st.index token
            ⟨filename, saved_name, r.2.1, ts, client_ip, ("web")⟩,
          setKey st.disk saved_name r.1⟩)

/-- One upload request of a sequence (fields of `handle_upload` other
than the quota, the client IP and the state). -/
structure UploadReq where
  token : String
  filename : String
  ts : Nat
  chunks : List (List Nat)
  cancel : Option CancelPoint
deriving Repr

/-- Run a sequence of uploads from one client IP. -/
def runUploads (Q : Nat) (ip : String) :
    List UploadReq → ServerState → ServerState
  | [], st => st
  | r :: rs, st =>
    runUploads Q ip rs
      (handle_upload Q ip r.token r.filename r.ts r.chunks r.cancel st).2

/-! ### `web_server.handle_get_file`, `handle_file_info`,
`handle_delete` -/

/-- Outcome of `GET /files/{token}` as far as token resolution is
concerned: the 404 not-found page, or the resolved record and file
bytes (then served raw / as preview / download page). -/
inductive GetFileResult where
  | notFoundPage
  | found (meta : FileRecord) (content : List Nat)
deriving DecidableEq, Repr

/-- `web_server.handle_get_file`: unknown token or missing file on disk
give the not-found page. -/
def handle_get_file (st : ServerState) (token : String) : GetFileResult :=
  match alookup st.index token with
  | none => GetFileResult.notFoundPage
  | some meta =>
    match alookup st.disk meta.saved_name with
    | none => GetFileResult.notFoundPage
    | some content => GetFileResult.found meta content

/-- The JSON metadata payload of `GET /api/file/{token}` (url fields and
the preview payload are elided; the preview is `build_preview_payload`
applied to the stored file). -/
structure InfoPayload where
  token : String
  filename : String
  size : Nat
  size_readable : String
deriving DecidableEq, Repr

/-- Outcome of `GET /api/file/{token}`: an error status with the JSON
`error` message, or the metadata payload. -/
inductive InfoResult where
  | err (status : Nat) (msg : String)
  | ok (payload : InfoPayload)
deriving DecidableEq, Repr

/-- `web_server.handle_file_info`. -/
def handle_file_info (st : ServerState) (token : String) : InfoResult :=
  match alookup st.index token with
  | none => InfoResult.err 404 ("not found")
  | some meta =>
    match alookup st.disk meta.saved_name with
    | none => InfoResult.err 404 ("file missing")
    | some _ =>
      InfoResult.ok
        ⟨token, meta.filename, meta.size, human_readable_size meta.size⟩

/-- Outcome of `DELETE /api/delete/{token}`. -/
inductive DeleteResult where
  | notFound
  | forbidden
  | ok
deriving DecidableEq, Repr

/-- HTTP status of each delete outcome. -/
def delete_status : DeleteResult → Nat
  | DeleteResult.notFound => 404
  | DeleteResult.forbidden => 403
  | DeleteResult.ok => 200

/-- `web_server.handle_delete`: 404 on an unknown token, 403 when the
requester's apparent IP differs from the stored one, else unlink the
file (if present) and drop the index entry. -/
def handle_delete (st : ServerState) (token client_ip : String) :
    DeleteResult × ServerState :=
  match alookup st.index token with
  | none => (DeleteResult.notFound, st)
  | some meta =>
    if meta.ip ≠ client_ip then (DeleteResult.forbidden, st)
    else
      (DeleteResult.ok,
       ⟨delKey st.index token, delKey st.disk meta.saved_name⟩)

/-! ### `file_index.py`: the JSON index document

`save_index` writes `json.dumps(index, ensure_ascii=False, indent=2)`
to `INDEX_PATH`; `load_index` returns `{}` when the file is missing or
`json.loads` fails, else the parsed document.  The serializer below
reproduces `json.dumps` with those options on an index whose records
have the repository's schema (spec §6: `filename`, `saved_name`,
`size`, `timestamp`, `ip`, `uploader`); the parser models `json.loads`
restricted to that shape of document. -/

/-- An opening brace character (`"\x7b"`). -/
def lb : Char := Char.ofNat 123

/-- A closing brace character (`"\x7d"`). -/
def rb : Char := Char.ofNat 125

/-- A record field value: JSON string or (non-negative) JSON integer. -/
inductive JPrim where
  | str (s : List Char)
  | num (n : Nat)
deriving DecidableEq, Repr

/-- Hex digit character (lowercase), as used by `\u00XX` escapes. -/
def hexDigitChar (n : Nat) : Char :=
  match n with
  | 0 => '0' | 1 => '1' | 2 => '2' | 3 => '3' | 4 => '4'
  | 5 => '5' | 6 => '6' | 7 => '7' | 8 => '8' | 9 => '9'
  | 10 => 'a' | 11 => 'b' | 12 => 'c' | 13 => 'd' | 14 => 'e'
  | _ => 'f'

/-- `json.dumps` escaping of one character with `ensure_ascii=False`:
quote, backslash and the named control characters get two-character
escapes, other control characters `\u00XX`, everything else is kept. -/
def escapeChar (c : Char) : List Char :=
  if c = '"' then ['\\', '"']
  else if c = '\\' then ['\\', '\\']
  else if c = '\n' then ['\\', 'n']
  else if c = '\r' then ['\\', 'r']
  else if c = '\t' then ['\\', 't']
  else if c = Char.ofNat 8 then ['\\', 'b']
  else if c = Char.ofNat 12 then ['\\', 'f']
  else if c.toNat < 32 then
    ['\\', 'u', '0', '0', hexDigitChar (c.toNat / 16),
     hexDigitChar (c.toNat % 16)]
  else [c]

/-- Escape a whole string body. -/
def escapeChars (s : List Char) : List Char :=
  s.foldr (fun c acc => escapeChar c ++ acc) []

/-- A serialized JSON string. -/
def dumpStr (s : List Char) : List Char :=
  '"' :: (escapeChars s ++ ['"'])

/-- Decimal digits of `n`, accumulator form (`str(n)` in Python). -/
def natDigitsAux (n : Nat) (acc : List Char) : List Char :=
  if h : n < 10 then hexDigitChar n :: acc
  else natDigitsAux (n / 10) (hexDigitChar (n % 10) :: acc)
decreasing_by exact Nat.div_lt_self (Nat.lt_of_lt_of_le (by omega) (Nat.le_of_not_lt h)) (by omega)

/-- Decimal rendering of a natural number. -/
def natChars (n : Nat) : List Char := natDigitsAux n []

/-- Serialize a primitive value. -/
def dumpPrim : JPrim → List Char
  | JPrim.str s => dumpStr s
  | JPrim.num n => natChars n

/-- The six fields of a record, in the insertion order used by
`handle_upload`. -/
def recFields (r : FileRecord) : List (List Char × JPrim) :=
  [(("filename").data, JPrim.str r.filename.data),
   (("saved_name").data, JPrim.str r.saved_name.data),
   (("size").data, JPrim.num r.size),
   (("timestamp").data, JPrim.num r.timestamp),
   (("ip").data, JPrim.str r.ip.data),
   (("uploader").data, JPrim.str r.uploader.data)]

/-- One record field as printed by `json.dumps(..., indent=2)` at
nesting depth 2: newline, four spaces, key, colon, space, value. -/
def fieldChars (f : List Char × JPrim) : List Char :=
  '\n' :: (' ' :: ' ' :: ' ' :: ' ' :: (dumpStr f.1 ++ ':' :: ' ' :: dumpPrim f.2))

/-- A record object as printed at depth 1 (closing brace indented by
two spaces). -/
def dumpRecord (r : FileRecord) : List Char :=
  match recFields r with
  | [] => [lb, rb]
  | f :: fs =>
    lb :: (fieldChars f ++
      fs.foldr (fun g acc => ',' :: (fieldChars g ++ acc)) [] ++
      '\n' :: ' ' :: ' ' :: [rb])

/-- One top-level `"token": {record}` item at depth 1. -/
def entryChars (e : String × FileRecord) : List Char :=
  '\n' :: (' ' :: ' ' :: (dumpStr e.1.data ++ ':' :: ' ' :: dumpRecord e.2))

/-- `json.dumps(index, ensure_ascii=False, indent=2)`. -/
def dumps (m : Index) : List Char :=
  match m with
  | [] => [lb, rb]
  | e :: es =>
    lb :: (entryChars e ++
      es.foldr (fun x acc => ',' :: (entryChars x ++ acc)) [] ++
      '\n' :: [rb])

/-- JSON whitespace. -/
def isWs (c : Char) : Bool :=
  (c == ' ') || (c == '\n') || (c == '\t') || (c == '\r')

/-- Skip leading whitespace. -/
def skipWs : List Char → List Char
  | [] => []
  | c :: rest => if isWs c then skipWs rest else c :: rest

/-- Value of a run of decimal digits, accumulator form. -/
def digitsToNatAux : List Char → Nat → Nat
  | [], acc => acc
  | c :: rest, acc => digitsToNatAux rest (acc * 10 + (c.toNat - 48))

/-- Parse a JSON non-negative integer (one or more digits). -/
def parseNat (s : List Char) : Option (Nat × List Char) :=
  let ds := s.takeWhile Char.isDigit
  let rest := s.dropWhile Char.isDigit
  if ds = [] then none else some (digitsToNatAux ds 0, rest)

/-- True when the input does not start with a decimal digit (so a digit
run ends exactly here). -/
def headNotDigit : List Char → Bool
  | [] => true
  | c :: _ => !c.isDigit

/-- Value of one hex digit. -/
def hexVal (c : Char) : Option Nat :=
  if Char.isDigit c then some (c.toNat - 48)
  else if 'a' ≤ c ∧ c ≤ 'f' then some (c.toNat - 97 + 10)
  else if 'A' ≤ c ∧ c ≤ 'F' then some (c.toNat - 65 + 10)
  else none

/-- Resolution of a two-character escape. -/
def unescapeChar (e : Char) : Option Char :=
  if e = '"' then some '"'
  else if e = '\\' then some '\\'
  else if e = '/' then some '/'
  else if e = 'n' then some '\n'
  else if e = 'r' then some '\r'
  else if e = 't' then some '\t'
  else if e = 'b' then some (Char.ofNat 8)
  else if e = 'f' then some (Char.ofNat 12)
  else none

/-- Parse a JSON string body after the opening quote, up to and past
the closing quote; strict mode rejects raw control characters. -/
def parseStringBody : List Char → Option (List Char × List Char)
  | [] => none
  | c :: rest =>
    if c = '"' then some ([], rest)
    else if c = '\\' then
      match rest with
      | [] => none
      | e :: rest2 =>
        if e = 'u' then
          match rest2 with
          | h1 :: h2 :: h3 :: h4 :: rest3 =>
            match hexVal h1, hexVal h2, hexVal h3, hexVal h4 with
            | some a, some b, some c2, some d =>
              match parseStringBody rest3 with
              | some (s, r) =>
                some (Char.ofNat (((a * 16 + b) * 16 + c2) * 16 + d) :: s, r)
              | none => none
            | _, _, _, _ => none
          | _ => none
        else
          match unescapeChar e with
          | some u =>
            match parseStringBody rest2 with
            | some (s, r) => some (u :: s, r)
            | none => none
          | none => none
    else if c.toNat < 32 then none
    else
      match parseStringBody rest with
      | some (s, r) => some (c :: s, r)
      | none => none

/-- Parse a primitive value (string or integer). -/
def parsePrim (s : List Char) : Option (JPrim × List Char) :=
  match skipWs s with
  | [] => none
  | c :: rest =>
    if c = '"' then
      match parseStringBody rest with
      | some (t, r) => some (JPrim.str t, r)
      | none => none
    else
      match parseNat (c :: rest) with
      | some (n, r) => some (JPrim.num n, r)
      | none => none

/-- Parse one `"key": value` member of a record object. -/
def parseField (s : List Char) : Option ((List Char × JPrim) × List Char) :=
  match skipWs s with
  | [] => none
  | c :: rest =>
    if c = '"' then
      match parseStringBody rest with
      | some (k, r1) =>
        match skipWs r1 with
        | ':' :: r2 =>
          match parsePrim r2 with
          | some (v, r3) => some ((k, v), r3)
          | none => none
        | _ => none
      | none => none
    else none

/-- Parse the remaining members of a record object
(`("," member)* "\x7d"`), accumulating in reverse. -/
def parseFieldsAux : Nat → List Char → List (List Char × JPrim) →
    Option (List (List Char × JPrim) × List Char)
  | 0, _, _ => none
  | Nat.succ fuel, s, acc =>
    match skipWs s with
    | [] => none
    | c :: rest =>
      if c = ',' then
        match parseField rest with
        | some (f, r) => parseFieldsAux fuel r (f :: acc)
        | none => none
      else if c = rb then some (acc.reverse, rest)
      else none

/-- Reassemble a `FileRecord` from the parsed members: the document
shape produced for the repository's records. -/
def mkRecord (fs : List (List Char × JPrim)) : Option FileRecord :=
  match fs with
  | [(k1, JPrim.str fn), (k2, JPrim.str sn), (k3, JPrim.num sz),
     (k4, JPrim.num ts), (k5, JPrim.str ip), (k6, JPrim.str up)] =>
    if k1 = ("filename").data ∧ k2 = ("saved_name").data ∧
       k3 = ("size").data ∧ k4 = ("timestamp").data ∧
       k5 = ("ip").data ∧ k6 = ("uploader").data then
      some ⟨String.mk fn, String.mk sn, sz, ts, String.mk ip, String.mk up⟩
    else none
  | _ => none

/-- Parse a record object. -/
def parseRecord (s : List Char) : Option (FileRecord × List Char) :=
  match skipWs s with
  | [] => none
  | c :: rest =>
    if c = lb then
      match skipWs rest with
      | [] => none
      | c2 :: rest2 =>
        if c2 = rb then
          match mkRecord [] with
          | some r => some (r, rest2)
          | none => none
        else
          match parseField (c2 :: rest2) with
          | some (f, r1) =>
            match parseFieldsAux (r1.length + 1) r1 [f] with
            | some (fs, r2) =>
              match mkRecord fs with
              | some r => some (r, r2)
              | none => none
            | none => none
          | none => none
    else none

/-- Parse one top-level `"token": {record}` member. -/
def parseEntry (s : List Char) : Option ((String × FileRecord) × List Char) :=
  match skipWs s with
  | [] => none
  | c :: rest =>
    if c = '"' then
      match parseStringBody rest with
      | some (k, r1) =>
        match skipWs r1 with
        | ':' :: r2 =>
          match parseRecord r2 with
          | some (v, r3) => some ((String.mk k, v), r3)
          | none => none
        | _ => none
      | none => none
    else none

/-- Parse the remaining top-level members, accumulating in reverse. -/
def parseEntriesAux : Nat → List Char → Index →
    Option (Index × List Char)
  | 0, _, _ => none
  | Nat.succ fuel, s, acc =>
    match skipWs s with
    | [] => none
    | c :: rest =>
      if c = ',' then
        match parseEntry rest with
        | some (e, r) => parseEntriesAux fuel r (e :: acc)
        | none => none
      else if c = rb then some (acc.reverse, rest)
      else none

/-- `json.loads` on an index document: the whole input must be consumed
up to trailing whitespace. -/
def parseIndexTop (s : List Char) : Option Index :=
  match skipWs s with
  | [] => none
  | c :: rest =>
    if c = lb then
      match skipWs rest with
      | [] => none
      | c2 :: rest2 =>
        if c2 = rb then
          if skipWs rest2 = [] then some [] else none
        else
          match parseEntry (c2 :: rest2) with
          | some (e, r1) =>
            match parseEntriesAux (r1.length + 1) r1 [e] with
            | some (es, r2) => if skipWs r2 = [] then some es else none
            | none => none
          | none => none
    else none

/-- `file_index.save_index`: the resulting content of `INDEX_PATH`
(`some` — the file now exists). -/
def save_index (index : Index) : Option (List Char) :=
  some (dumps index)

/-- `file_index.load_index`: `{}` when `INDEX_PATH` is missing or does
not parse, else the parsed document. -/
def load_index (fileContent : Option (List Char)) : Index :=
  match fileContent with
  | none => []
  | some s =>
    match parseIndexTop s with
    | some idx => idx
    | none => []

/-! ## Lemmas about the dictionary model -/

theorem alookup_setKey_self {α : Type} (m : List (String × α)) (k : String)
    (v : α) : alookup (setKey m k v) k = some v := by
  induction m with
  | nil => simp [alookup, setKey]
  | cons p rest ih =>
    obtain ⟨k', v'⟩ := p
    by_cases h : k' = k
    · simp [setKey, h, alookup]
    · simp [setKey, h, alookup, ih]

theorem alookup_setKey_ne {α : Type} (m : List (String × α))
    (k k' : String) (v : α) (h : k ≠ k') :
    alookup (setKey m k v) k' = alookup m k' := by
  induction m with
  | nil => simp [alookup, setKey, h]
  | cons p rest ih =>
    obtain ⟨k0, v0⟩ := p
    by_cases h0 : k0 = k
    · subst h0
      simp [setKey, alookup, h]
    · simp [setKey, h0, alookup, ih]

theorem alookup_delKey_self {α : Type} (m : List (String × α))
    (k : String) : alookup (delKey m k) k = none := by
  induction m with
  | nil => simp [alookup, delKey]
  | cons p rest ih =>
    obtain ⟨k0, v0⟩ := p
    by_cases h0 : k0 = k
    · simp [delKey, h0, ih]
    · simp [delKey, h0, alookup, ih]

theorem alookup_delKey_ne {α : Type} (m : List (String × α))
    (k k' : String) (h : k ≠ k') :
    alookup (delKey m k) k' = alookup m k' := by
  induction m with
  | nil => simp [delKey]
  | cons p rest ih =>
    obtain ⟨k0, v0⟩ := p
    by_cases h0 : k0 = k
    · subst h0
      simp [delKey, alookup, h, ih]
    · simp [delKey, h0, alookup, ih]

theorem usage_for_setKey_le (ip : String) (m : Index) (k : String)
    (v : FileRecord) :
    usage_for ip (setKey m k v) ≤
      usage_for ip m + (if v.ip = ip then v.size else 0) := by
  induction m with
  | nil => simp [setKey, usage_for]
  | cons p rest ih =>
    obtain ⟨k0, v0⟩ := p
    by_cases h0 : k0 = k
    · simp only [setKey, if_pos h0, usage_for]
      omega
    · simp only [setKey, if_neg h0, usage_for]
      omega

/-! ## Lemmas about the upload chunk loop -/

theorem stream_size (Q u : Nat) (cancel : Option CancelPoint) :
    ∀ (chunks : List (List Nat)) (i s : Nat),
      (stream Q u cancel chunks i s).2.1 =
        s + (stream Q u cancel chunks i s).1.length := by
  intro chunks
  induction chunks with
  | nil =>
    intro i s
    by_cases h : cancel = some (CancelPoint.read i) <;> simp [stream, h]
  | cons c rest ih =>
    intro i s
    by_cases h : cancel = some (CancelPoint.read i)
    · simp [stream, h]
    · by_cases hc : c = []
      · simp [stream, h, hc]
      · by_cases hq : 0 < Q ∧ Q < u + (s + c.length)
        · simp [stream, h, hc, hq]
        · simp only [stream, if_neg h, if_neg hc, if_neg hq]
          simp only [List.length_append, ih (i + 1) (s + c.length)]
          omega

theorem stream_completed_bound (Q u : Nat) (cancel : Option CancelPoint)
    (hQ : 0 < Q) :
    ∀ (chunks : List (List Nat)) (i s : Nat),
      (stream Q u cancel chunks i s).2.2 = StreamExit.completed →
      u + s ≤ Q → u + (stream Q u cancel chunks i s).2.1 ≤ Q := by
  intro chunks
  induction chunks with
  | nil =>
    intro i s hdone hle
    by_cases h : cancel = some (CancelPoint.read i) <;>
      simp [stream, h] at hdone ⊢ <;> omega
  | cons c rest ih =>
    intro i s hdone hle
    by_cases h : cancel = some (CancelPoint.read i)
    · simp [stream, h] at hdone
    · by_cases hc : c = []
      · simp [stream, h, hc] at hdone ⊢
        omega
      · by_cases hq : 0 < Q ∧ Q < u + (s + c.length)
        · simp [stream, h, hc, hq] at hdone
        · simp only [stream, if_neg h, if_neg hc, if_neg hq] at hdone ⊢
          exact ih (i + 1) (s + c.length) hdone (by omega)

/-! ## C9: human-readable size formatting -/

theorem hrsGo_step (num den : Nat) (unit : String) (rest : List String)
    (h1 : ¬ num < 1024 * den) (h2 : rest ≠ []) :
    hrsGo num den (unit :: rest) = hrsGo num (den * 1024) rest := by
  rw [hrsGo, if_neg]
  rintro (h | h)
  · exact h1 h
  · exact h2 h

theorem hrsGo_stop (num den : Nat) (unit : String) (rest : List String)
    (h1 : num < 1024 * den ∨ rest = []) (h2 : unit ≠ ("B")) :
    hrsGo num den (unit :: rest) = fmtTwoDec num den ++ " " ++ unit := by
  rw [hrsGo, if_pos h1, if_neg h2]

/-- Claim C9: `human_readable_size` renders `n < 1024` as the integer
byte count with unit `B`, and otherwise divides by 1024 repeatedly
through `KB`, `MB`, `GB`, capping at `TB`, formatted to two decimal
places (`fmtTwoDec n d` is the two-decimal rendering of the exact value
`n / d`); in particular `0 → "0 B"`, `1023 → "1023 B"`,
`1024 → "1.00 KB"`, `1048576 → "1.00 MB"`. -/
theorem human_readable_size_spec (n : Nat) :
    (n < 1024 → human_readable_size n = toString n ++ " B") ∧
    (1024 ≤ n → n < 1024 ^ 2 →
      human_readable_size n = fmtTwoDec n 1024 ++ " " ++ ("KB")) ∧
    (1024 ^ 2 ≤ n → n < 1024 ^ 3 →
      human_readable_size n = fmtTwoDec n (1024 ^ 2) ++ " " ++ ("MB")) ∧
    (1024 ^ 3 ≤ n → n < 1024 ^ 4 →
      human_readable_size n = fmtTwoDec n (1024 ^ 3) ++ " " ++ ("GB")) ∧
    (1024 ^ 4 ≤ n →
      human_readable_size n = fmtTwoDec n (1024 ^ 4) ++ " " ++ ("TB")) ∧
    human_readable_size 0 = "0 B" ∧
    human_readable_size 1023 = "1023 B" ∧
    human_readable_size 1024 = "1.00 KB" ∧
    human_readable_size 1048576 = "1.00 MB" := by
  refine ⟨?_, ?_, ?_, ?_, ?_, by decide, by decide, by decide, by decide⟩
  · intro h
    rw [human_readable_size, hrsGo, if_pos (Or.inl (by omega)),
      if_pos rfl, Nat.div_one]
  · intro h1 h2
    rw [human_readable_size, hrsGo_step _ _ _ _ (by omega) (by simp),
      hrsGo_stop _ _ _ _ (Or.inl (by omega)) (by simp)]
  · intro h1 h2
    rw [human_readable_size, hrsGo_step _ _ _ _ (by omega) (by simp),
      hrsGo_step _ _ _ _ (by omega) (by simp),
      hrsGo_stop _ _ _ _ (Or.inl (by omega)) (by simp)]
    norm_num
  · intro h1 h2
    rw [human_readable_size, hrsGo_step _ _ _ _ (by omega) (by simp),
      hrsGo_step _ _ _ _ (by omega) (by simp),
      hrsGo_step _ _ _ _ (by omega) (by simp),
      hrsGo_stop _ _ _ _ (Or.inl (by omega)) (by simp)]
    norm_num
  · intro h1
    rw [human_readable_size, hrsGo_step _ _ _ _ (by omega) (by simp),
      hrsGo_step _ _ _ _ (by omega) (by simp),
      hrsGo_step _ _ _ _ (by omega) (by simp),
      hrsGo_step _ _ _ _ (by omega) (by simp),
      hrsGo_stop _ _ _ _ (Or.inr rfl) (by simp)]
    norm_num

/-- Witness for C9 at concrete inputs. -/
theorem human_readable_size_spec_witness :
    human_readable_size 2048 = fmtTwoDec 2048 1024 ++ " " ++ ("KB") :=
  (human_readable_size_spec 2048).2.1 (by omega) (by norm_num)

/-! ## C1: per-IP quota invariant -/

theorem handle_upload_preflight (Q : Nat) (ip token fn : String) (ts : Nat)
    (chunks : List (List Nat)) (cancel : Option CancelPoint)
    (st : ServerState) (hQ : 0 < Q) (hu : Q ≤ usage_for ip st.index) :
    handle_upload Q ip token fn ts chunks cancel st =
      (UploadResult.preflightRejected
        ⟨human_readable_size Q, human_readable_size (usage_for ip st.index),
         ("0 B")⟩, st) := by
  simp only [handle_upload, hQ, if_true, true_and]
  rw [if_pos hu]

theorem quota_step (Q : Nat) (ip token fn : String) (ts : Nat)
    (chunks : List (List Nat)) (cancel : Option CancelPoint)
    (st : ServerState) (hQ : 0 < Q) (hle : usage_for ip st.index ≤ Q) :
    usage_for ip (handle_upload Q ip token fn ts chunks cancel st).2.index
      ≤ Q := by
  by_cases hpre : Q ≤ usage_for ip st.index
  · rw [handle_upload_preflight Q ip token fn ts chunks cancel st hQ hpre]
    exact hle
  · simp only [handle_upload, hQ, if_true, true_and, if_neg hpre]
    split
    · exact hle
    · exact hle
    · split
      · exact hle
      · rename_i hdone _
        refine le_trans (usage_for_setKey_le ip st.index token _) ?_
        simp only [if_pos rfl, if_true, eq_self_iff_true]
        have hb := stream_completed_bound Q (usage_for ip st.index) cancel
          hQ chunks 0 0 hdone (by omega)
        omega

theorem runUploads_usage (Q : Nat) (ip : String) (hQ : 0 < Q) :
    ∀ (reqs : List UploadReq) (st : ServerState),
      usage_for ip st.index ≤ Q →
      usage_for ip (runUploads Q ip reqs st).index ≤ Q := by
  intro reqs
  induction reqs with
  | nil => intro st h; exact h
  | cons r rs ih =>
    intro st h
    exact ih _ (quota_step Q ip r.token r.filename r.ts r.chunks r.cancel
      st hQ h)

/-- Claim C1: for every sequence of uploads from a single client IP with
a fixed positive quota `Q`, the per-IP sum of committed `size` values
never exceeds `Q` (hence never exceeds `Q` plus any chunk size: the
mid-stream checkpoint runs after every chunk, so the bounded-overshoot
allowance is never needed for committed sizes), and an upload attempted
when the usage is already `≥ Q` is rejected at the pre-flight checkpoint
with the state — index and disk — fully unchanged: zero bytes committed,
nothing written. -/
theorem quota_invariant (Q : Nat) (ip : String) (hQ : 0 < Q) :
    (∀ reqs : List UploadReq,
       usage_for ip (runUploads Q ip reqs ⟨[], []⟩).index ≤ Q) ∧
    (∀ (st : ServerState) (token fn : String) (ts : Nat)
       (chunks : List (List Nat)) (cancel : Option CancelPoint),
       Q ≤ usage_for ip st.index →
       handle_upload Q ip token fn ts chunks cancel st =
         (UploadResult.preflightRejected
           ⟨human_readable_size Q,
            human_readable_size (usage_for ip st.index), ("0 B")⟩, st)) := by
  constructor
  · intro reqs
    exact runUploads_usage Q ip hQ reqs ⟨[], []⟩ (by simp [usage_for])
  · intro st token fn ts chunks cancel hu
    exact handle_upload_preflight Q ip token fn ts chunks cancel st hQ hu

/-- Witness for C1: empty sequence at quota 1, and a concrete pre-flight
rejection when one byte is already stored. -/
theorem quota_invariant_witness :
    usage_for ("ip") (runUploads 1 ("ip") [] ⟨[], []⟩).index ≤ 1 ∧
    handle_upload 1 ("ip") ("t") ("f") 0 [[7]] none
        ⟨[(("t0"), ⟨("f"), ("t0-f"), 1, 0, ("ip"), ("web")⟩)], []⟩ =
      (UploadResult.preflightRejected
        ⟨human_readable_size 1,
         human_readable_size
           (usage_for ("ip")
             [(("t0"), ⟨("f"), ("t0-f"), 1, 0, ("ip"), ("web")⟩)]),
         ("0 B")⟩,
       ⟨[(("t0"), ⟨("f"), ("t0-f"), 1, 0, ("ip"), ("web")⟩)], []⟩) :=
  ⟨(quota_invariant 1 ("ip") (by decide)).1 [],
   (quota_invariant 1 ("ip") (by decide)).2 _ ("t") ("f") 0 [[7]] none
     (by decide)⟩

/-! ## A case analysis of `handle_upload`, shared by C2, C3 and C4 -/

theorem stream_quotaHit_posQ (Q u : Nat) (cancel : Option CancelPoint) :
    ∀ (chunks : List (List Nat)) (i s : Nat),
      (stream Q u cancel chunks i s).2.2 = StreamExit.quotaHit → 0 < Q := by
  intro chunks
  induction chunks with
  | nil =>
    intro i s h
    by_cases hr : cancel = some (CancelPoint.read i)
    · simp [stream, hr] at h
    · simp [stream, hr] at h
  | cons c rest ih =>
    intro i s h
    by_cases hr : cancel = some (CancelPoint.read i)
    · simp [stream, hr] at h
    · by_cases hc : c = []
      · simp [stream, hr, hc] at h
      · by_cases hq : 0 < Q ∧ Q < u + (s + c.length)
        · exact hq.1
        · simp only [stream, if_neg hr, if_neg hc, if_neg hq] at h
          exact ih (i + 1) (s + c.length) h

theorem stream_cancelledRead_read (Q u : Nat) (cancel : Option CancelPoint) :
    ∀ (chunks : List (List Nat)) (i s : Nat),
      (stream Q u cancel chunks i s).2.2 = StreamExit.cancelledRead →
      ∃ k, cancel = some (CancelPoint.read k) := by
  intro chunks
  induction chunks with
  | nil =>
    intro i s h
    by_cases hr : cancel = some (CancelPoint.read i)
    · exact ⟨i, hr⟩
    · simp [stream, hr] at h
  | cons c rest ih =>
    intro i s h
    by_cases hr : cancel = some (CancelPoint.read i)
    · exact ⟨i, hr⟩
    · by_cases hc : c = []
      · simp [stream, hr, hc] at h
      · by_cases hq : 0 < Q ∧ Q < u + (s + c.length)
        · simp [stream, hr, hc, hq] at h
        · simp only [stream, if_neg hr, if_neg hc, if_neg hq] at h
          exact ih (i + 1) (s + c.length) h

/-- Complete case analysis of `handle_upload`: pre-flight rejection,
mid-stream quota rejection, cancellation at a `read_chunk` await,
cancellation at the `release` await, or a committed upload. -/
theorem handle_upload_characterize (Q : Nat) (ip token fn : String)
    (ts : Nat) (chunks : List (List Nat)) (cancel : Option CancelPoint)
    (st : ServerState) :
    ((0 < Q ∧ Q ≤ usage_for ip st.index) ∧
      handle_upload Q ip token fn ts chunks cancel st =
        (UploadResult.preflightRejected
          ⟨human_readable_size Q,
           human_readable_size (usage_for ip st.index), ("0 B")⟩, st)) ∨
    (0 < Q ∧
      handle_upload Q ip token fn ts chunks cancel st =
        (UploadResult.quotaRejected
          ⟨human_readable_size Q,
           human_readable_size (usage_for ip st.index),
           human_readable_size (Q - usage_for ip st.index)⟩,
         ⟨st.index, delKey st.disk (token ++ "-" ++ fn)⟩)) ∨
    ((∃ k, cancel = some (CancelPoint.read k)) ∧
      handle_upload Q ip token fn ts chunks cancel st =
        (UploadResult.cancelled,
         ⟨st.index, delKey st.disk (token ++ "-" ++ fn)⟩)) ∨
    (cancel = some CancelPoint.release ∧ ∃ w,
      handle_upload Q ip token fn ts chunks cancel st =
        (UploadResult.cancelled,
         ⟨st.index, setKey st.disk (token ++ "-" ++ fn) w⟩)) ∨
    (∃ w : List Nat,
      handle_upload Q ip token fn ts chunks cancel st =
        (UploadResult.completed token,
         ⟨setKey st.index token
            ⟨fn, token ++ "-" ++ fn, w.length, ts, ip, ("web")⟩,
          setKey st.disk (token ++ "-" ++ fn) w⟩)) := by
  simp only [handle_upload]
  by_cases hQ : 0 < Q
  · rw [if_pos hQ]
    split
    · rename_i hpre
      left
      exact ⟨hpre, rfl⟩
    · split
      · rename_i heq
        right; right; left
        exact ⟨stream_cancelledRead_read _ _ _ chunks 0 0 heq, rfl⟩
      · right; left
        exact ⟨hQ, rfl⟩
      · split
        · rename_i hrel
          right; right; right; left
          exact ⟨hrel, _, rfl⟩
        · right; right; right; right
          refine ⟨(stream Q (usage_for ip st.index) cancel chunks 0 0).1, ?_⟩
          rw [show (stream Q (usage_for ip st.index)
                cancel chunks 0 0).1.length =
              (stream Q (usage_for ip st.index) cancel chunks 0 0).2.1 by
            rw [stream_size]
            omega]
  · rw [if_neg hQ, if_neg (fun h => hQ h.1)]
    split
    · rename_i heq
      right; right; left
      exact ⟨stream_cancelledRead_read _ _ _ chunks 0 0 heq, rfl⟩
    · rename_i heq
      exact absurd (stream_quotaHit_posQ _ _ _ chunks 0 0 heq) hQ
    · split
      · rename_i hrel
        right; right; right; left
        exact ⟨hrel, _, rfl⟩
      · right; right; right; right
        refine ⟨(stream Q 0 cancel chunks 0 0).1, ?_⟩
        rw [show (stream Q 0 cancel chunks 0 0).1.length =
            (stream Q 0 cancel chunks 0 0).2.1 by
          rw [stream_size]
          omega]

/-! ## C2: cancellation cleanup -/

/-- Counterexample to C2 as stated: a one-chunk upload whose
cancellation arrives at the `await field.release()` point — after the
last chunk write and before the index commit.  The `CancelledError`
raised inside the `finally:` block bypasses the
`except asyncio.CancelledError` cleanup, so the cancellation propagates
and no index entry is created, but the written file stays on disk
instead of being deleted. -/
theorem cancellation_cleanup_counterexample :
    (handle_upload 0 ("1.2.3.4") ("tok") ("a.txt") 0 [[1]]
        (some CancelPoint.release) ⟨[], []⟩).1 = UploadResult.cancelled ∧
    (handle_upload 0 ("1.2.3.4") ("tok") ("a.txt") 0 [[1]]
        (some CancelPoint.release) ⟨[], []⟩).2.index = [] ∧
    alookup (handle_upload 0 ("1.2.3.4") ("tok") ("a.txt") 0 [[1]]
        (some CancelPoint.release) ⟨[], []⟩).2.disk ("tok-a.txt") =
      some [1] := by
  decide

/-- Claim C2 (amended): if the upload is cancelled, the cancellation is
propagated (outcome `cancelled`, not a response) and no index entry is
ever created.  When cancellation arrives at any `read_chunk` await —
including the final read after the last chunk write — the
partially-written file is also deleted; but when it arrives at the
`field.release()` await between the last chunk write and the index
commit, the written file remains on disk (with no index entry
referencing it). -/
theorem cancellation_cleanup (Q : Nat) (ip token fn : String) (ts : Nat)
    (chunks : List (List Nat)) (cancel : Option CancelPoint)
    (st : ServerState) :
    ((handle_upload Q ip token fn ts chunks cancel st).1 =
        UploadResult.cancelled →
      (handle_upload Q ip token fn ts chunks cancel st).2.index =
        st.index) ∧
    (∀ k, cancel = some (CancelPoint.read k) →
      (handle_upload Q ip token fn ts chunks cancel st).1 =
        UploadResult.cancelled →
      alookup (handle_upload Q ip token fn ts chunks cancel st).2.disk
        (token ++ "-" ++ fn) = none) ∧
    (cancel = some CancelPoint.release →
      (handle_upload Q ip token fn ts chunks cancel st).1 =
        UploadResult.cancelled →
      (alookup (handle_upload Q ip token fn ts chunks cancel st).2.disk
        (token ++ "-" ++ fn)).isSome = true) := by
  rcases handle_upload_characterize Q ip token fn ts chunks cancel st with
    ⟨_, heq⟩ | ⟨_, heq⟩ | ⟨hread, heq⟩ | ⟨hrel, w, heq⟩ | ⟨w, heq⟩
  · rw [heq]
    refine ⟨fun h => ?_, fun k hk h => ?_, fun hk h => ?_⟩ <;> cases h
  · rw [heq]
    refine ⟨fun h => ?_, fun k hk h => ?_, fun hk h => ?_⟩ <;> cases h
  · rw [heq]
    refine ⟨fun _ => rfl, fun k hk _ => alookup_delKey_self _ _,
      fun hk _ => ?_⟩
    obtain ⟨k, hk'⟩ := hread
    rw [hk] at hk'
    cases hk'
  · rw [heq]
    refine ⟨fun _ => rfl, fun k hk _ => ?_, fun _ _ => ?_⟩
    · rw [hk] at hrel
      cases hrel
    · rw [alookup_setKey_self]
      rfl
  · rw [heq]
    refine ⟨fun h => ?_, fun k hk h => ?_, fun hk h => ?_⟩ <;> cases h

/-- Witness for C2 (amended): cancellation delivered at the first
`read_chunk` — the partial file is gone and no index entry exists. -/
theorem cancellation_cleanup_witness :
    (handle_upload 0 ("ip") ("t") ("f") 0 [[5]]
        (some (CancelPoint.read 0)) ⟨[], []⟩).2.index = ([] : Index) ∧
    alookup (handle_upload 0 ("ip") ("t") ("f") 0 [[5]]
        (some (CancelPoint.read 0)) ⟨[], []⟩).2.disk ("t-f") = none :=
  ⟨(cancellation_cleanup 0 ("ip") ("t") ("f") 0 [[5]]
      (some (CancelPoint.read 0)) ⟨[], []⟩).1 (by decide),
   (cancellation_cleanup 0 ("ip") ("t") ("f") 0 [[5]]
      (some (CancelPoint.read 0)) ⟨[], []⟩).2.1 0 rfl (by decide)⟩

/-! ## C3: quota rejection response contract -/

/-- Claim C3: whenever an upload is rejected for quota — at the
pre-flight or the mid-stream checkpoint — the response is a 400 JSON
body whose `limit`, `used` and `remaining` fields are all rendered with
the one `human_readable_size` scaling scheme (the pre-flight literal
`"0 B"` equals `human_readable_size (Q - usage)` there since
`usage ≥ Q`), and no index entry and no on-disk file remain for the
aborted upload: the pre-flight rejection leaves the state untouched,
the mid-stream rejection leaves the index untouched and deletes the
partial file. -/
theorem quota_rejection_contract (Q : Nat) (ip token fn : String)
    (ts : Nat) (chunks : List (List Nat)) (cancel : Option CancelPoint)
    (st : ServerState) :
    (∀ resp, (handle_upload Q ip token fn ts chunks cancel st).1 =
        UploadResult.preflightRejected resp →
      upload_status (handle_upload Q ip token fn ts chunks cancel st).1 =
        some 400 ∧
      resp.limit = human_readable_size Q ∧
      resp.used = human_readable_size (usage_for ip st.index) ∧
      resp.remaining = human_readable_size (Q - usage_for ip st.index) ∧
      (handle_upload Q ip token fn ts chunks cancel st).2 = st) ∧
    (∀ resp, (handle_upload Q ip token fn ts chunks cancel st).1 =
        UploadResult.quotaRejected resp →
      upload_status (handle_upload Q ip token fn ts chunks cancel st).1 =
        some 400 ∧
      resp.limit = human_readable_size Q ∧
      resp.used = human_readable_size (usage_for ip st.index) ∧
      resp.remaining = human_readable_size (Q - usage_for ip st.index) ∧
      (handle_upload Q ip token fn ts chunks cancel st).2.index =
        st.index ∧
      alookup (handle_upload Q ip token fn ts chunks cancel st).2.disk
        (token ++ "-" ++ fn) = none) := by
  rcases handle_upload_characterize Q ip token fn ts chunks cancel st with
    ⟨⟨hQ, hle⟩, heq⟩ | ⟨hQ, heq⟩ | ⟨_, heq⟩ | ⟨hrel, w, heq⟩ | ⟨w, heq⟩
  · rw [heq]
    refine ⟨fun resp hresp => ?_, fun resp hresp => ?_⟩
    · cases hresp
      refine ⟨rfl, rfl, rfl, ?_, rfl⟩
      rw [Nat.sub_eq_zero_of_le hle]
      rfl
    · cases hresp
  · rw [heq]
    refine ⟨fun resp hresp => ?_, fun resp hresp => ?_⟩
    · cases hresp
    · cases hresp
      exact ⟨rfl, rfl, rfl, rfl, rfl, alookup_delKey_self _ _⟩
  · rw [heq]
    refine ⟨fun resp hresp => ?_, fun resp hresp => ?_⟩ <;> cases hresp
  · rw [heq]
    refine ⟨fun resp hresp => ?_, fun resp hresp => ?_⟩ <;> cases hresp
  · rw [heq]
    refine ⟨fun resp hresp => ?_, fun resp hresp => ?_⟩ <;> cases hresp

/-- Witness for C3: a pre-flight rejection at quota 5 with 6 bytes
already stored (state untouched), and a mid-stream rejection at quota 5
on a 6-byte stream from a fresh state (file deleted). -/
theorem quota_rejection_contract_witness :
    upload_status (handle_upload 5 ("ip") ("t") ("f") 0 [[1]] none
      ⟨[(("t0"), ⟨("f"), ("t0-f"), 6, 0, ("ip"), ("web")⟩)], []⟩).1 =
        some 400 ∧
    (handle_upload 5 ("ip") ("t") ("f") 0 [[1]] none
      ⟨[(("t0"), ⟨("f"), ("t0-f"), 6, 0, ("ip"), ("web")⟩)], []⟩).2 =
      ⟨[(("t0"), ⟨("f"), ("t0-f"), 6, 0, ("ip"), ("web")⟩)], []⟩ ∧
    alookup (handle_upload 5 ("ip") ("t2") ("g") 0 [[1, 2, 3], [4, 5, 6]]
      none ⟨[], []⟩).2.disk ("t2-g") = none :=
  ⟨((quota_rejection_contract 5 ("ip") ("t") ("f") 0 [[1]] none
      ⟨[(("t0"), ⟨("f"), ("t0-f"), 6, 0, ("ip"), ("web")⟩)], []⟩).1
      ⟨("5 B"), ("6 B"), ("0 B")⟩ (by decide)).1,
   ((quota_rejection_contract 5 ("ip") ("t") ("f") 0 [[1]] none
      ⟨[(("t0"), ⟨("f"), ("t0-f"), 6, 0, ("ip"), ("web")⟩)], []⟩).1
      ⟨("5 B"), ("6 B"), ("0 B")⟩ (by decide)).2.2.2.2,
   ((quota_rejection_contract 5 ("ip") ("t2") ("g") 0 [[1, 2, 3], [4, 5, 6]]
      none ⟨[], []⟩).2
      ⟨("5 B"), ("0 B"), ("5 B")⟩ (by decide)).2.2.2.2.2⟩

/-! ## C4: committed size equals bytes on disk -/

/-- Claim C4: for every successful upload the committed record's `size`
equals the byte length of the file stored at `saved_name`, and that
file exists on disk when the record is committed (the index entry is
written only on the fully-completed branch of the stream, after the
file content is in place). -/
theorem upload_commit_consistency (Q : Nat) (ip token fn : String)
    (ts : Nat) (chunks : List (List Nat)) (cancel : Option CancelPoint)
    (st : ServerState) :
    ∀ tok, (handle_upload Q ip token fn ts chunks cancel st).1 =
        UploadResult.completed tok →
      ∃ rec content,
        alookup (handle_upload Q ip token fn ts chunks cancel st).2.index
          token = some rec ∧
        rec.saved_name = token ++ "-" ++ fn ∧
        alookup (handle_upload Q ip token fn ts chunks cancel st).2.disk
          rec.saved_name = some content ∧
        rec.size = content.length := by
  intro tok h
  rcases handle_upload_characterize Q ip token fn ts chunks cancel st with
    ⟨_, heq⟩ | ⟨_, heq⟩ | ⟨_, heq⟩ | ⟨hrel, w, heq⟩ | ⟨w, heq⟩
  · rw [heq] at h
    cases h
  · rw [heq] at h
    cases h
  · rw [heq] at h
    cases h
  · rw [heq] at h
    cases h
  · rw [heq]
    exact ⟨_, w, alookup_setKey_self _ _ _, rfl, alookup_setKey_self _ _ _,
      rfl⟩

/-- Witness for C4: a two-chunk upload with unlimited quota commits a
record whose size matches the stored bytes. -/
theorem upload_commit_consistency_witness :
    ∃ rec content,
      alookup (handle_upload 0 ("ip") ("t") ("f") 0 [[1, 2], [3]] none
        ⟨[], []⟩).2.index ("t") = some rec ∧
      rec.saved_name = ("t") ++ "-" ++ ("f") ∧
      alookup (handle_upload 0 ("ip") ("t") ("f") 0 [[1, 2], [3]] none
        ⟨[], []⟩).2.disk rec.saved_name = some content ∧
      rec.size = content.length :=
  upload_commit_consistency 0 ("ip") ("t") ("f") 0 [[1, 2], [3]] none
    ⟨[], []⟩ ("t") (by decide)

/-! ## C5: resolution returns NotFound, never any other error -/

/-- Claim C5: for every token, both resolvers (`GET /api/file/{token}`
and `GET /files/{token}`) return their 404 not-found outcome when the
token is absent from the index, and also when the token is present but
the file at `saved_name` is absent from disk; and `handle_file_info`
never produces an error status other than 404 (in the embedding both
handlers are total functions — no exception escapes). -/
theorem resolve_not_found (st : ServerState) (token : String) :
    (alookup st.index token = none →
      handle_file_info st token = InfoResult.err 404 ("not found") ∧
      handle_get_file st token = GetFileResult.notFoundPage) ∧
    (∀ meta, alookup st.index token = some meta →
      alookup st.disk meta.saved_name = none →
      handle_file_info st token = InfoResult.err 404 ("file missing") ∧
      handle_get_file st token = GetFileResult.notFoundPage) ∧
    (∀ s msg, handle_file_info st token = InfoResult.err s msg → s = 404) := by
  refine ⟨?_, ?_, ?_⟩
  · intro h
    rw [handle_file_info, handle_get_file, h]
    exact ⟨rfl, rfl⟩
  · intro meta hmeta hdisk
    simp [handle_file_info, handle_get_file, hmeta, hdisk]
  · intro s msg h
    rw [handle_file_info] at h
    cases hmeta : alookup st.index token with
    | none =>
      simp only [hmeta] at h
      cases h
      rfl
    | some meta =>
      simp only [hmeta] at h
      cases hdisk : alookup st.disk meta.saved_name with
      | none =>
        simp only [hdisk] at h
        cases h
        rfl
      | some content =>
        simp only [hdisk] at h
        cases h

/-- Witness for C5: unknown token on the empty state, and a token whose
file is missing from disk. -/
theorem resolve_not_found_witness :
    (handle_file_info ⟨[], []⟩ ("nope") = InfoResult.err 404 ("not found") ∧
     handle_get_file ⟨[], []⟩ ("nope") = GetFileResult.notFoundPage) ∧
    (handle_file_info ⟨[(("t"), ⟨("f"), ("t-f"), 3, 0, ("ip"), ("web")⟩)],
        []⟩ ("t") = InfoResult.err 404 ("file missing") ∧
     handle_get_file ⟨[(("t"), ⟨("f"), ("t-f"), 3, 0, ("ip"), ("web")⟩)],
        []⟩ ("t") = GetFileResult.notFoundPage) :=
  ⟨(resolve_not_found ⟨[], []⟩ ("nope")).1 (by decide),
   (resolve_not_found
      ⟨[(("t"), ⟨("f"), ("t-f"), 3, 0, ("ip"), ("web")⟩)], []⟩ ("t")).2.1
     ⟨("f"), ("t-f"), 3, 0, ("ip"), ("web")⟩ (by decide) (by decide)⟩

/-! ## C7: delete requires matching IP -/

/-- Claim C7: when the requester's apparent IP differs from the stored
`ip` of the record, `DELETE /api/delete/{token}` answers 403 and leaves
the state unchanged — in particular a subsequent `GET /api/file/{token}`
still succeeds whenever the file is on disk; when the IPs match, the
delete removes both the on-disk file and the index entry. -/
theorem delete_ip_check (st : ServerState) (token ip : String)
    (meta : FileRecord) (hmeta : alookup st.index token = some meta) :
    (meta.ip ≠ ip →
      handle_delete st token ip = (DeleteResult.forbidden, st) ∧
      delete_status (handle_delete st token ip).1 = 403 ∧
      (∀ content, alookup st.disk meta.saved_name = some content →
        handle_file_info (handle_delete st token ip).2 token =
          InfoResult.ok
            ⟨token, meta.filename, meta.size,
             human_readable_size meta.size⟩)) ∧
    (meta.ip = ip →
      (handle_delete st token ip).1 = DeleteResult.ok ∧
      alookup (handle_delete st token ip).2.index token = none ∧
      alookup (handle_delete st token ip).2.disk meta.saved_name = none) := by
  constructor
  · intro hne
    have heq : handle_delete st token ip = (DeleteResult.forbidden, st) := by
      simp only [handle_delete, hmeta]
      rw [if_pos hne]
    refine ⟨heq, by rw [heq]; rfl, ?_⟩
    intro content hcontent
    rw [heq]
    simp [handle_file_info, hmeta, hcontent]
  · intro hip
    have heq : handle_delete st token ip =
        (DeleteResult.ok,
         ⟨delKey st.index token, delKey st.disk meta.saved_name⟩) := by
      simp only [handle_delete, hmeta]
      rw [if_neg (by simp [hip])]
    rw [heq]
    exact ⟨rfl, alookup_delKey_self _ _, alookup_delKey_self _ _⟩

/-- Witness for C7: a delete from a foreign IP bounces with 403 and the
record still resolves; the same delete from the uploader's IP removes
file and entry. -/
theorem delete_ip_check_witness :
    handle_delete ⟨[(("t"), ⟨("f"), ("t-f"), 3, 0, ("ipA"), ("web")⟩)],
        [(("t-f"), [1, 2, 3])]⟩ ("t") ("ipB") =
      (DeleteResult.forbidden,
       ⟨[(("t"), ⟨("f"), ("t-f"), 3, 0, ("ipA"), ("web")⟩)],
        [(("t-f"), [1, 2, 3])]⟩) ∧
    handle_file_info
      (handle_delete ⟨[(("t"), ⟨("f"), ("t-f"), 3, 0, ("ipA"), ("web")⟩)],
        [(("t-f"), [1, 2, 3])]⟩ ("t") ("ipB")).2 ("t") =
      InfoResult.ok ⟨("t"), ("f"), 3, human_readable_size 3⟩ ∧
    alookup (handle_delete
      ⟨[(("t"), ⟨("f"), ("t-f"), 3, 0, ("ipA"), ("web")⟩)],
       [(("t-f"), [1, 2, 3])]⟩ ("t") ("ipA")).2.disk ("t-f") = none :=
  ⟨((delete_ip_check ⟨[(("t"), ⟨("f"), ("t-f"), 3, 0, ("ipA"), ("web")⟩)],
      [(("t-f"), [1, 2, 3])]⟩ ("t") ("ipB")
      ⟨("f"), ("t-f"), 3, 0, ("ipA"), ("web")⟩ (by decide)).1
      (by decide)).1,
   ((delete_ip_check ⟨[(("t"), ⟨("f"), ("t-f"), 3, 0, ("ipA"), ("web")⟩)],
      [(("t-f"), [1, 2, 3])]⟩ ("t") ("ipB")
      ⟨("f"), ("t-f"), 3, 0, ("ipA"), ("web")⟩ (by decide)).1
      (by decide)).2.2 [1, 2, 3] (by decide),
   ((delete_ip_check ⟨[(("t"), ⟨("f"), ("t-f"), 3, 0, ("ipA"), ("web")⟩)],
      [(("t-f"), [1, 2, 3])]⟩ ("t") ("ipA")
      ⟨("f"), ("t-f"), 3, 0, ("ipA"), ("web")⟩ (by decide)).2
      (by decide)).2.2⟩

/-! ## C8: delete is idempotent at the interface -/

/-- Claim C8: for a token present in the index (with the requester's IP
matching, so the first delete succeeds, and no other token's record
sharing the same `saved_name` — true of all states the service itself
produces, where `saved_name` starts with the owning token), a second
delete of the same token returns the not-found outcome without touching
anything: it leaves the state exactly as the first delete left it, and
neither call changes the index entry or the on-disk file of any other
token. -/
theorem delete_idempotent (st : ServerState) (token ip : String)
    (meta : FileRecord) (hmeta : alookup st.index token = some meta)
    (hip : meta.ip = ip)
    (hsn : ∀ t' meta', t' ≠ token → alookup st.index t' = some meta' →
      meta'.saved_name ≠ meta.saved_name) :
    (handle_delete st token ip).1 = DeleteResult.ok ∧
    (handle_delete (handle_delete st token ip).2 token ip).1 =
      DeleteResult.notFound ∧
    (handle_delete (handle_delete st token ip).2 token ip).2 =
      (handle_delete st token ip).2 ∧
    (∀ t', t' ≠ token →
      alookup (handle_delete st token ip).2.index t' =
        alookup st.index t') ∧
    (∀ t' meta', t' ≠ token → alookup st.index t' = some meta' →
      alookup (handle_delete st token ip).2.disk meta'.saved_name =
        alookup st.disk meta'.saved_name) := by
  have heq : handle_delete st token ip =
      (DeleteResult.ok,
       ⟨delKey st.index token, delKey st.disk meta.saved_name⟩) := by
    simp only [handle_delete, hmeta]
    rw [if_neg (by simp [hip])]
  have hsecond : alookup (delKey st.index token) token = none :=
    alookup_delKey_self _ _
  refine ⟨by rw [heq], ?_, ?_, ?_, ?_⟩
  · rw [heq]
    simp [handle_delete, hsecond]
  · rw [heq]
    simp [handle_delete, hsecond]
  · intro t' ht'
    rw [heq]
    exact alookup_delKey_ne _ _ _ (Ne.symm ht')
  · intro t' meta' ht' hmeta'
    rw [heq]
    exact alookup_delKey_ne _ _ _ (Ne.symm (hsn t' meta' ht' hmeta'))

/-- Witness for C8 on a two-token state. -/
theorem delete_idempotent_witness :
    (handle_delete ⟨[(("t"), ⟨("f"), ("t-f"), 3, 0, ("ip"), ("web")⟩),
        (("u"), ⟨("g"), ("u-g"), 1, 0, ("ip"), ("web")⟩)],
       [(("t-f"), [1, 2, 3]), (("u-g"), [9])]⟩ ("t") ("ip")).1 =
      DeleteResult.ok ∧
    (handle_delete (handle_delete
      ⟨[(("t"), ⟨("f"), ("t-f"), 3, 0, ("ip"), ("web")⟩),
        (("u"), ⟨("g"), ("u-g"), 1, 0, ("ip"), ("web")⟩)],
       [(("t-f"), [1, 2, 3]), (("u-g"), [9])]⟩ ("t") ("ip")).2
      ("t") ("ip")).1 = DeleteResult.notFound ∧
    alookup (handle_delete
      ⟨[(("t"), ⟨("f"), ("t-f"), 3, 0, ("ip"), ("web")⟩),
        (("u"), ⟨("g"), ("u-g"), 1, 0, ("ip"), ("web")⟩)],
       [(("t-f"), [1, 2, 3]), (("u-g"), [9])]⟩ ("t") ("ip")).2.disk
      ("u-g") = some [9] := by
  have h := delete_idempotent
    ⟨[(("t"), ⟨("f"), ("t-f"), 3, 0, ("ip"), ("web")⟩),
      (("u"), ⟨("g"), ("u-g"), 1, 0, ("ip"), ("web")⟩)],
     [(("t-f"), [1, 2, 3]), (("u-g"), [9])]⟩ ("t") ("ip")
    ⟨("f"), ("t-f"), 3, 0, ("ip"), ("web")⟩ (by decide) (by decide)
    (by
      intro t' meta' ht' hm'
      by_cases hu : t' = ("u")
      · subst hu
        have h2 : alookup
            [(("t"), (⟨("f"), ("t-f"), 3, 0, ("ip"), ("web")⟩ : FileRecord)),
             (("u"), ⟨("g"), ("u-g"), 1, 0, ("ip"), ("web")⟩)] ("u") =
            some ⟨("g"), ("u-g"), 1, 0, ("ip"), ("web")⟩ := by decide
        rw [h2] at hm'
        cases hm'
        decide
      · have h3 : alookup
            [(("t"), (⟨("f"), ("t-f"), 3, 0, ("ip"), ("web")⟩ : FileRecord)),
             (("u"), ⟨("g"), ("u-g"), 1, 0, ("ip"), ("web")⟩)] t' = none := by
          simp [alookup, Ne.symm ht', Ne.symm hu]
        rw [h3] at hm'
        cases hm')
  refine ⟨h.1, h.2.1, ?_⟩
  have h5 := h.2.2.2.2 ("u") ⟨("g"), ("u-g"), 1, 0, ("ip"), ("web")⟩
    (by decide) (by decide)
  rw [h5]
  decide

/-! ## C6: preview classification -/

theorem classify_ext_content_ignored (c c' : Option (List Char))
    (ext : String) (m : Option String)
    (h : text_cond ext m = false ∨ image_cond ext m = true ∨
      video_cond ext m = true ∨ audio_cond ext m = true ∨
      pdf_cond ext m = true) :
    classify_ext c ext m = classify_ext c' ext m := by
  by_cases h1 : image_cond ext m = true
  · simp [classify_ext, h1]
  · by_cases h2 : video_cond ext m = true
    · simp [classify_ext, h1, h2]
    · by_cases h3 : audio_cond ext m = true
      · simp [classify_ext, h1, h2, h3]
      · by_cases h4 : pdf_cond ext m = true
        · simp [classify_ext, h1, h2, h3, h4]
        · rcases h with h5 | h5 | h5 | h5 | h5
          · simp [classify_ext, h1, h2, h3, h4, h5]
          · exact absurd h5 h1
          · exact absurd h5 h2
          · exact absurd h5 h3
          · exact absurd h5 h4

/-- Counterexample to C6 as stated: the classification is not
deterministic in the `(extension, mime_hint)` pair — on the same pair
`(".txt", "text/plain")` the text rule returns `text` for a non-empty
file but falls through to `none` for an empty one, so the result also
depends on the file content. -/
theorem preview_classification_counterexample :
    classify_ext (some [('a')]) (".txt") (some ("text/plain")) =
      PreviewKind.text [('a')] false ∧
    classify_ext (some []) (".txt") (some ("text/plain")) =
      PreviewKind.none ∧
    classify_ext (some [('a')]) (".txt") (some ("text/plain")) ≠
      classify_ext (some []) (".txt") (some ("text/plain")) := by
  decide

/-- Claim C6 (amended): the classifier checks the six rules of §4.4 in
order with first match winning; the text rule returns `text` with the
first 4000 decoded characters and the `truncated` flag set exactly when
more characters existed beyond the cap, and falls through to `none`
when nothing was read; the result is deterministic in
`(extension, mime_hint)` whenever classification does not reach the
text rule — when it does, the result additionally depends on the file
content; the cited example pairs classify as stated for every content.
-/
theorem preview_classification (c c' : Option (List Char)) (ext : String)
    (m : Option String) :
    (image_cond ext m = true → classify_ext c ext m = PreviewKind.image) ∧
    (image_cond ext m = false → video_cond ext m = true →
      classify_ext c ext m = PreviewKind.video) ∧
    (image_cond ext m = false → video_cond ext m = false →
      audio_cond ext m = true →
      classify_ext c ext m = PreviewKind.audio) ∧
    (image_cond ext m = false → video_cond ext m = false →
      audio_cond ext m = false → pdf_cond ext m = true →
      classify_ext c ext m = PreviewKind.pdf) ∧
    (image_cond ext m = false → video_cond ext m = false →
      audio_cond ext m = false → pdf_cond ext m = false →
      text_cond ext m = true →
      ∀ cs, c = some cs → cs ≠ [] →
        classify_ext c ext m =
          PreviewKind.text (cs.take 4000) (decide (4000 < cs.length))) ∧
    (image_cond ext m = false → video_cond ext m = false →
      audio_cond ext m = false → pdf_cond ext m = false →
      text_cond ext m = true → (c = Option.none ∨ c = some []) →
      classify_ext c ext m = PreviewKind.none) ∧
    (image_cond ext m = false → video_cond ext m = false →
      audio_cond ext m = false → pdf_cond ext m = false →
      text_cond ext m = false →
      classify_ext c ext m = PreviewKind.none) ∧
    (text_cond ext m = false ∨ image_cond ext m = true ∨
      video_cond ext m = true ∨ audio_cond ext m = true ∨
      pdf_cond ext m = true →
      classify_ext c ext m = classify_ext c' ext m) ∧
    classify_ext c (".png") (some ("image/png")) = PreviewKind.image ∧
    classify_ext c (".pdf") Option.none = PreviewKind.pdf ∧
    classify_ext c (".unknownext") (some ("application/octet-stream")) =
      PreviewKind.none ∧
    build_preview_payload c ("x.png") (some ("image/png")) =
      PreviewKind.image := by
  refine ⟨?_, ?_, ?_, ?_, ?_, ?_, ?_,
    classify_ext_content_ignored c c' ext m, ?_, ?_, ?_, ?_⟩
  · intro h1
    simp [classify_ext, h1]
  · intro h1 h2
    simp [classify_ext, h1, h2]
  · intro h1 h2 h3
    simp [classify_ext, h1, h2, h3]
  · intro h1 h2 h3 h4
    simp [classify_ext, h1, h2, h3, h4]
  · intro h1 h2 h3 h4 h5 cs hc hne
    subst hc
    simp [classify_ext, h1, h2, h3, h4, h5, List.take_eq_nil_iff, hne]
  · intro h1 h2 h3 h4 h5 hc
    rcases hc with hc | hc <;> subst hc <;>
      simp [classify_ext, h1, h2, h3, h4, h5]
  · intro h1 h2 h3 h4 h5
    simp [classify_ext, h1, h2, h3, h4, h5]
  · rw [classify_ext_content_ignored c Option.none (".png")
      (some ("image/png")) (Or.inr (Or.inl (by decide)))]
    decide
  · rw [classify_ext_content_ignored c Option.none (".pdf") Option.none
      (Or.inr (Or.inr (Or.inr (Or.inr (by decide)))))]
    decide
  · rw [classify_ext_content_ignored c Option.none (".unknownext")
      (some ("application/octet-stream")) (Or.inl (by decide))]
    decide
  · rw [build_preview_payload,
      show String.mk ((path_suffix ("x.png")).data.map Char.toLower) =
          (".png") by decide,
      classify_ext_content_ignored c Option.none (".png")
        (some ("image/png")) (Or.inr (Or.inl (by decide)))]
    decide

/-- Witness for C6 (amended): the text rule on a two-character `.txt`
file without a MIME hint. -/
theorem preview_classification_witness :
    classify_ext (some [('h'), ('i')]) (".txt") Option.none =
      PreviewKind.text [('h'), ('i')] false :=
  (preview_classification (some [('h'), ('i')]) Option.none (".txt")
      Option.none).2.2.2.2.1 (by decide) (by decide) (by decide)
    (by decide) (by decide) [('h'), ('i')] rfl (by decide)

/-! ## C10: JSON round trip — whitespace and string lemmas -/

theorem skipWs_cons_ws (c : Char) (s : List Char) (h : isWs c = true) :
    skipWs (c :: s) = skipWs s := by
  simp [skipWs, h]

theorem skipWs_cons_not (c : Char) (s : List Char) (h : isWs c = false) :
    skipWs (c :: s) = c :: s := by
  simp [skipWs, h]

theorem skipWs_append_ws (ws s : List Char)
    (h : ∀ c ∈ ws, isWs c = true) :
    skipWs (ws ++ s) = skipWs s := by
  induction ws with
  | nil => rfl
  | cons c rest ih =>
    rw [List.cons_append, skipWs_cons_ws c _ (h c (by simp)),
      ih (fun c hc => h c (by simp [hc]))]

theorem skipWs_idem (s : List Char) : skipWs (skipWs s) = skipWs s := by
  induction s with
  | nil => rfl
  | cons c rest ih =>
    by_cases h : isWs c = true
    · rw [skipWs_cons_ws c _ h, ih]
    · rw [skipWs_cons_not c _ (by simp at h; simp [h]),
        skipWs_cons_not c _ (by simp at h; simp [h])]

theorem escapeChars_cons (c : Char) (s : List Char) :
    escapeChars (c :: s) = escapeChar c ++ escapeChars s := by
  rfl

theorem hexVal_hexDigitChar (n : Nat) (h : n < 16) :
    hexVal (hexDigitChar n) = some n := by
  interval_cases n <;> decide

theorem parseStringBody_escape (s rest : List Char) :
    parseStringBody (escapeChars s ++ '"' :: rest) = some (s, rest) := by
  induction s with
  | nil =>
    rw [show escapeChars ([] : List Char) ++ '"' :: rest = '"' :: rest
      from rfl, parseStringBody.eq_def]
    simp
  | cons c s ih =>
    rw [escapeChars_cons, List.append_assoc]
    by_cases h1 : c = '"'
    · subst h1
      rw [show escapeChar '"' = ['\\', '"'] from rfl, List.cons_append,
        List.cons_append, List.nil_append, parseStringBody.eq_def]
      simp [unescapeChar, ih]
    · by_cases h2 : c = '\\'
      · subst h2
        rw [show escapeChar '\\' = ['\\', '\\'] from rfl, List.cons_append,
          List.cons_append, List.nil_append, parseStringBody.eq_def]
        simp [unescapeChar, ih]
      · by_cases h3 : c = '\n'
        · subst h3
          rw [show escapeChar '\n' = ['\\', 'n'] from rfl, List.cons_append,
            List.cons_append, List.nil_append, parseStringBody.eq_def]
          simp [unescapeChar, ih]
        · by_cases h4 : c = '\r'
          · subst h4
            rw [show escapeChar '\r' = ['\\', 'r'] by simp [escapeChar],
              List.cons_append, List.cons_append, List.nil_append,
              parseStringBody.eq_def]
            simp [unescapeChar, ih]
          · by_cases h5 : c = '\t'
            · subst h5
              rw [show escapeChar '\t' = ['\\', 't'] by simp [escapeChar],
                List.cons_append, List.cons_append, List.nil_append,
                parseStringBody.eq_def]
              simp [unescapeChar, ih]
            · by_cases h6 : c = Char.ofNat 8
              · subst h6
                rw [show escapeChar (Char.ofNat 8) = ['\\', 'b'] by
                    simp [escapeChar],
                  List.cons_append, List.cons_append, List.nil_append,
                  parseStringBody.eq_def]
                simp [unescapeChar, ih]
              · by_cases h7 : c = Char.ofNat 12
                · subst h7
                  rw [show escapeChar (Char.ofNat 12) = ['\\', 'f'] by
                      simp [escapeChar],
                    List.cons_append, List.cons_append, List.nil_append,
                    parseStringBody.eq_def]
                  simp [unescapeChar, ih]
                · by_cases h8 : c.toNat < 32
                  · rw [show escapeChar c =
                        ['\\', 'u', '0', '0', hexDigitChar (c.toNat / 16),
                         hexDigitChar (c.toNat % 16)] by
                      simp [escapeChar, h1, h2, h3, h4, h5, h6, h7, h8],
                      List.cons_append, List.cons_append, List.cons_append,
                      List.cons_append, List.cons_append, List.cons_append,
                      List.nil_append, parseStringBody.eq_def]
                    simp only [reduceCtorEq, if_false, reduceIte,
                      show hexVal '0' = some 0 by decide,
                      hexVal_hexDigitChar _
                        (show c.toNat / 16 < 16 by omega),
                      hexVal_hexDigitChar _
                        (show c.toNat % 16 < 16 by omega), ih]
                    rw [show ((0 * 16 + 0) * 16 + c.toNat / 16) * 16 +
                        c.toNat % 16 = c.toNat by omega]
                    rw [Char.ofNat_toNat]
                    rw [if_neg (show ¬('\\' : Char) = '"' by decide)]
                  · rw [show escapeChar c = [c] by
                        simp [escapeChar, h1, h2, h3, h4, h5, h6, h7, h8],
                      List.cons_append, List.nil_append,
                      parseStringBody.eq_def]
                    simp [h1, h2, h8, ih]

/-! ## C10: decimal digit lemmas -/

theorem hexDigitChar_isDigit (n : Nat) (h : n < 10) :
    (hexDigitChar n).isDigit = true := by
  interval_cases n <;> decide

theorem hexDigitChar_val (n : Nat) (h : n < 10) :
    (hexDigitChar n).toNat - 48 = n := by
  interval_cases n <;> decide

theorem natDigitsAux_append (n : Nat) :
    ∀ acc, natDigitsAux n acc = natDigitsAux n [] ++ acc := by
  induction n using Nat.strong_induction_on with
  | _ n ih =>
    intro acc
    by_cases h : n < 10
    · have e1 : natDigitsAux n acc = hexDigitChar n :: acc := by
        rw [natDigitsAux]
        simp [h]
      have e2 : natDigitsAux n [] = [hexDigitChar n] := by
        rw [natDigitsAux]
        simp [h]
      rw [e1, e2]
      rfl
    · have hlt : n / 10 < n := Nat.div_lt_self (by omega) (by omega)
      have e1 : natDigitsAux n acc =
          natDigitsAux (n / 10) (hexDigitChar (n % 10) :: acc) := by
        rw [natDigitsAux]
        simp [h]
      have e2 : natDigitsAux n [] =
          natDigitsAux (n / 10) [hexDigitChar (n % 10)] := by
        rw [natDigitsAux]
        simp [h]
      rw [e1, e2, ih (n / 10) hlt (hexDigitChar (n % 10) :: acc),
        ih (n / 10) hlt [hexDigitChar (n % 10)]]
      simp

theorem digitsToNatAux_append (l1 l2 : List Char) :
    ∀ v, digitsToNatAux (l1 ++ l2) v =
      digitsToNatAux l2 (digitsToNatAux l1 v) := by
  induction l1 with
  | nil => intro v; rfl
  | cons c rest ih => intro v; simp [digitsToNatAux, ih]

theorem natChars_spec (n : Nat) :
    (∀ c ∈ natChars n, c.isDigit = true) ∧ natChars n ≠ [] ∧
    ∀ v, digitsToNatAux (natChars n) v =
      v * 10 ^ (natChars n).length + n := by
  induction n using Nat.strong_induction_on with
  | _ n ih =>
    by_cases h : n < 10
    · have he : natChars n = [hexDigitChar n] := by
        rw [natChars, natDigitsAux]
        simp [h]
      refine ⟨?_, by simp [he], ?_⟩
      · intro c hc
        rw [he] at hc
        simp at hc
        subst hc
        exact hexDigitChar_isDigit n h
      · intro v
        rw [he]
        simp only [digitsToNatAux, List.length_singleton, pow_one]
        rw [hexDigitChar_val n h]
    · have he : natChars n =
          natChars (n / 10) ++ [hexDigitChar (n % 10)] := by
        rw [natChars, natDigitsAux]
        simp only [h, dite_false]
        rw [natDigitsAux_append]
        rfl
      have hlt : n / 10 < n := Nat.div_lt_self (by omega) (by omega)
      obtain ⟨ihd, ihne, ihv⟩ := ih (n / 10) hlt
      refine ⟨?_, by simp [he], ?_⟩
      · intro c hc
        rw [he] at hc
        rcases List.mem_append.1 hc with hc | hc
        · exact ihd c hc
        · simp at hc
          subst hc
          exact hexDigitChar_isDigit _ (by omega)
      · intro v
        rw [he, digitsToNatAux_append, ihv]
        simp only [digitsToNatAux, List.length_append,
          List.length_singleton]
        rw [hexDigitChar_val _ (by omega), pow_succ]
        have hdm : 10 * (n / 10) + n % 10 = n := Nat.div_add_mod n 10
        calc (v * 10 ^ (natChars (n / 10)).length + n / 10) * 10 + n % 10
            = v * (10 ^ (natChars (n / 10)).length * 10) +
              (10 * (n / 10) + n % 10) := by ring
          _ = v * (10 ^ (natChars (n / 10)).length * 10) + n := by
              rw [hdm]

theorem digit_not_ws (c : Char) (h : c.isDigit = true) : isWs c = false := by
  by_cases e1 : c = ' '
  · subst e1; simp at h
  · by_cases e2 : c = '\n'
    · subst e2; simp at h
    · by_cases e3 : c = '\t'
      · subst e3; simp at h
      · by_cases e4 : c = '\r'
        · subst e4; simp at h
        · simp [isWs, e1, e2, e3, e4]

theorem takeWhile_digits (ds rest : List Char)
    (hds : ∀ c ∈ ds, c.isDigit = true)
    (hrest : headNotDigit rest = true) :
    (ds ++ rest).takeWhile Char.isDigit = ds ∧
    (ds ++ rest).dropWhile Char.isDigit = rest := by
  induction ds with
  | nil =>
    cases rest with
    | nil => exact ⟨rfl, rfl⟩
    | cons c rest' =>
      simp only [headNotDigit, Bool.not_eq_true'] at hrest
      simp [List.takeWhile, List.dropWhile, hrest]
  | cons d ds' ih =>
    have hd := hds d (by simp)
    obtain ⟨h1, h2⟩ := ih (fun c hc => hds c (by simp [hc]))
    simp [List.takeWhile, List.dropWhile, hd, h1, h2]

theorem parseNat_natChars (n : Nat) (rest : List Char)
    (hrest : headNotDigit rest = true) :
    parseNat (natChars n ++ rest) = some (n, rest) := by
  obtain ⟨hd, hne, hv⟩ := natChars_spec n
  obtain ⟨ht, hdr⟩ := takeWhile_digits (natChars n) rest hd hrest
  rw [parseNat]
  simp only [ht, hdr, hne, if_false, reduceIte]
  rw [hv 0]
  simp

/-! ## C10: primitive and member round trips -/

theorem parsePrim_dumpStr (t rest : List Char) :
    parsePrim (dumpStr t ++ rest) = some (JPrim.str t, rest) := by
  unfold parsePrim
  rw [show dumpStr t ++ rest = '"' :: (escapeChars t ++ '"' :: rest) by
    simp [dumpStr]]
  rw [skipWs_cons_not _ _ (by decide)]
  simp [parseStringBody_escape]

theorem parsePrim_num (n : Nat) (rest : List Char)
    (hrest : headNotDigit rest = true) :
    parsePrim (natChars n ++ rest) = some (JPrim.num n, rest) := by
  obtain ⟨hd, hne, hv⟩ := natChars_spec n
  cases hnc : natChars n with
  | nil => exact absurd hnc hne
  | cons c cs =>
    have hcd : c.isDigit = true := hd c (by rw [hnc]; simp)
    have hq : ¬ c = '"' := by
      intro e
      subst e
      exact absurd hcd (by decide)
    unfold parsePrim
    rw [List.cons_append, skipWs_cons_not _ _ (digit_not_ws c hcd)]
    simp only [hq, if_false, reduceIte]
    rw [show c :: (cs ++ rest) = natChars n ++ rest by rw [hnc]; rfl]
    rw [parseNat_natChars n rest hrest]

theorem parsePrim_ws (c : Char) (s : List Char) (h : isWs c = true) :
    parsePrim (c :: s) = parsePrim s := by
  unfold parsePrim
  rw [skipWs_cons_ws c s h]

theorem parsePrim_dump (v : JPrim) (rest : List Char)
    (hrest : headNotDigit rest = true) :
    parsePrim (dumpPrim v ++ rest) = some (v, rest) := by
  cases v with
  | str t => exact parsePrim_dumpStr t rest
  | num n => exact parsePrim_num n rest hrest

/-! ## C10: field list round trip -/

theorem parseField_dump (k : List Char) (v : JPrim) (rest : List Char)
    (hrest : headNotDigit rest = true) :
    parseField (fieldChars (k, v) ++ rest) = some ((k, v), rest) := by
  unfold parseField
  rw [show fieldChars (k, v) ++ rest =
      '\n' :: ' ' :: ' ' :: ' ' :: ' ' ::
        ('"' :: (escapeChars k ++
          '"' :: ':' :: ' ' :: (dumpPrim v ++ rest))) by
    simp [fieldChars, dumpStr]]
  simp only [skipWs_cons_ws _ _ (by decide : isWs '\n' = true),
    skipWs_cons_ws _ _ (by decide : isWs ' ' = true),
    skipWs_cons_not _ _ (by decide : isWs '"' = false),
    skipWs_cons_not _ _ (by decide : isWs ':' = false),
    reduceIte, parseStringBody_escape,
    parsePrim_ws _ _ (by decide : isWs ' ' = true),
    parsePrim_dump v rest hrest]

theorem ws_not_digit (c : Char) (h : isWs c = true) : c.isDigit = false := by
  simp only [isWs, Bool.or_eq_true, beq_iff_eq] at h
  rcases h with ((h | h) | h) | h <;> subst h <;> decide

theorem headNotDigit_close (ws rest : List Char)
    (hws : ∀ c ∈ ws, isWs c = true) :
    headNotDigit (ws ++ rb :: rest) = true := by
  cases ws with
  | nil =>
    rw [List.nil_append]
    exact (by decide : (!Char.isDigit rb) = true)
  | cons w ws' =>
    simp only [List.cons_append, headNotDigit,
      ws_not_digit w (hws w (by simp))]
    rfl

theorem parseFieldsAux_dump (fs : List (List Char × JPrim)) :
    ∀ (fuel : Nat) (acc : List (List Char × JPrim)) (ws rest : List Char),
      fs.length < fuel → (∀ c ∈ ws, isWs c = true) →
      parseFieldsAux fuel
        (fs.foldr (fun g a => ',' :: (fieldChars g ++ a)) [] ++
          (ws ++ rb :: rest)) acc =
      some (acc.reverse ++ fs, rest) := by
  induction fs with
  | nil =>
    intro fuel acc ws rest hfuel hws
    cases fuel with
    | zero => omega
    | succ fuel' =>
      rw [List.foldr_nil, List.nil_append]
      unfold parseFieldsAux
      rw [skipWs_append_ws ws _ hws,
        skipWs_cons_not _ _ (by decide : isWs rb = false)]
      simp only [if_neg (by decide : ¬ rb = ','),
        if_pos (show rb = rb from rfl)]
      simp
  | cons f fs' ih =>
    obtain ⟨k, v⟩ := f
    intro fuel acc ws rest hfuel hws
    cases fuel with
    | zero => omega
    | succ fuel' =>
      rw [List.foldr_cons, List.cons_append, List.append_assoc]
      unfold parseFieldsAux
      rw [skipWs_cons_not _ _ (by decide : isWs ',' = false)]
      have hnd : headNotDigit
          (fs'.foldr (fun g a => ',' :: (fieldChars g ++ a)) [] ++
            (ws ++ rb :: rest)) = true := by
        cases fs' with
        | nil =>
          rw [List.foldr_nil, List.nil_append]
          exact headNotDigit_close ws rest hws
        | cons g gs => rfl
      simp only [if_pos (show (',' : Char) = ',' from rfl),
        parseField_dump k v _ hnd,
        ih fuel' ((k, v) :: acc) ws rest
          (by simp only [List.length_cons] at hfuel; omega) hws]
      simp

/-! ## C10: record round trip -/

theorem fieldsTail_length_ge (fs : List (List Char × JPrim)) :
    fs.length ≤
      (fs.foldr (fun g a => ',' :: (fieldChars g ++ a)) []).length := by
  induction fs with
  | nil => simp
  | cons f fs' ih => simp; omega

theorem mkRecord_recFields (r : FileRecord) :
    mkRecord (recFields r) = some r := by
  obtain ⟨fn, sn, sz, ts, ip, up⟩ := r
  obtain ⟨fnl⟩ := fn
  obtain ⟨snl⟩ := sn
  obtain ⟨ipl⟩ := ip
  obtain ⟨upl⟩ := up
  simp [mkRecord, recFields]

theorem parseField_eq_of_skipWs (s t : List Char) (h : skipWs s = skipWs t) :
    parseField s = parseField t := by
  unfold parseField
  rw [h]

theorem parseRecord_dump (r : FileRecord) (rest : List Char) :
    parseRecord (dumpRecord r ++ rest) = some (r, rest) := by
  have hshape : dumpRecord r ++ rest =
      lb :: (fieldChars (("filename").data, JPrim.str r.filename.data) ++
        ([(("saved_name").data, JPrim.str r.saved_name.data),
          (("size").data, JPrim.num r.size),
          (("timestamp").data, JPrim.num r.timestamp),
          (("ip").data, JPrim.str r.ip.data),
          (("uploader").data, JPrim.str r.uploader.data)].foldr
            (fun g a => ',' :: (fieldChars g ++ a)) [] ++
          (['\n', ' ', ' '] ++ rb :: rest))) := by
    simp [dumpRecord, recFields]
  have hsk : skipWs (fieldChars (("filename").data,
        JPrim.str r.filename.data) ++
      ([(("saved_name").data, JPrim.str r.saved_name.data),
        (("size").data, JPrim.num r.size),
        (("timestamp").data, JPrim.num r.timestamp),
        (("ip").data, JPrim.str r.ip.data),
        (("uploader").data, JPrim.str r.uploader.data)].foldr
          (fun g a => ',' :: (fieldChars g ++ a)) [] ++
        (['\n', ' ', ' '] ++ rb :: rest))) =
      '"' :: (escapeChars (("filename").data) ++
        '"' :: ':' :: ' ' :: (dumpPrim (JPrim.str r.filename.data) ++
          ([(("saved_name").data, JPrim.str r.saved_name.data),
            (("size").data, JPrim.num r.size),
            (("timestamp").data, JPrim.num r.timestamp),
            (("ip").data, JPrim.str r.ip.data),
            (("uploader").data, JPrim.str r.uploader.data)].foldr
              (fun g a => ',' :: (fieldChars g ++ a)) [] ++
            (['\n', ' ', ' '] ++ rb :: rest)))) := by
    rw [show fieldChars (("filename").data, JPrim.str r.filename.data) ++
        ([(("saved_name").data, JPrim.str r.saved_name.data),
          (("size").data, JPrim.num r.size),
          (("timestamp").data, JPrim.num r.timestamp),
          (("ip").data, JPrim.str r.ip.data),
          (("uploader").data, JPrim.str r.uploader.data)].foldr
            (fun g a => ',' :: (fieldChars g ++ a)) [] ++
          (['\n', ' ', ' '] ++ rb :: rest)) =
        '\n' :: ' ' :: ' ' :: ' ' :: ' ' ::
          ('"' :: (escapeChars (("filename").data) ++
            '"' :: ':' :: ' ' :: (dumpPrim (JPrim.str r.filename.data) ++
              ([(("saved_name").data, JPrim.str r.saved_name.data),
                (("size").data, JPrim.num r.size),
                (("timestamp").data, JPrim.num r.timestamp),
                (("ip").data, JPrim.str r.ip.data),
                (("uploader").data, JPrim.str r.uploader.data)].foldr
                  (fun g a => ',' :: (fieldChars g ++ a)) [] ++
                (['\n', ' ', ' '] ++ rb :: rest))))) by
      simp [fieldChars, dumpStr]]
    rw [skipWs_cons_ws _ _ (by decide), skipWs_cons_ws _ _ (by decide),
      skipWs_cons_ws _ _ (by decide), skipWs_cons_ws _ _ (by decide),
      skipWs_cons_ws _ _ (by decide), skipWs_cons_not _ _ (by decide)]
  unfold parseRecord
  rw [hshape]
  rw [skipWs_cons_not _ _ (by decide : isWs lb = false)]
  simp only [if_pos (show lb = lb from rfl), hsk,
    if_neg (by decide : ¬ '"' = rb)]
  rw [parseField_eq_of_skipWs _ _ (by
    rw [hsk, skipWs_cons_not _ _ (by decide : isWs '"' = false)])]
  rw [parseField_dump (("filename").data) (JPrim.str r.filename.data) _
    (by rfl)]
  simp only []
  rw [parseFieldsAux_dump _ _ _ ['\n', ' ', ' '] rest
    (by
      have hge := fieldsTail_length_ge
        [(("saved_name").data, JPrim.str r.saved_name.data),
         (("size").data, JPrim.num r.size),
         (("timestamp").data, JPrim.num r.timestamp),
         (("ip").data, JPrim.str r.ip.data),
         (("uploader").data, JPrim.str r.uploader.data)]
      simp only [List.length_append, List.length_cons] at hge ⊢
      omega)
    (by
      intro c hc
      fin_cases hc <;> decide)]
  simp only [List.reverse_cons, List.reverse_nil, List.nil_append,
    List.singleton_append]
  rw [show ((("filename").data, JPrim.str r.filename.data) ::
      [(("saved_name").data, JPrim.str r.saved_name.data),
       (("size").data, JPrim.num r.size),
       (("timestamp").data, JPrim.num r.timestamp),
       (("ip").data, JPrim.str r.ip.data),
       (("uploader").data, JPrim.str r.uploader.data)]) = recFields r
    from rfl]
  rw [mkRecord_recFields]
  simp

/-! ## C10: document round trip -/

theorem parseRecord_ws (c : Char) (s : List Char) (h : isWs c = true) :
    parseRecord (c :: s) = parseRecord s := by
  unfold parseRecord
  rw [skipWs_cons_ws c s h]

theorem parseEntry_dump (e : String × FileRecord) (rest : List Char) :
    parseEntry (entryChars e ++ rest) = some (e, rest) := by
  obtain ⟨key, rec0⟩ := e
  obtain ⟨keyl⟩ := key
  unfold parseEntry
  rw [show entryChars (String.mk keyl, rec0) ++ rest =
      '\n' :: ' ' :: ' ' ::
        ('"' :: (escapeChars keyl ++
          '"' :: ':' :: ' ' :: (dumpRecord rec0 ++ rest))) by
    simp [entryChars, dumpStr]]
  simp only [skipWs_cons_ws _ _ (by decide : isWs '\n' = true),
    skipWs_cons_ws _ _ (by decide : isWs ' ' = true),
    skipWs_cons_not _ _ (by decide : isWs '"' = false),
    skipWs_cons_not _ _ (by decide : isWs ':' = false),
    reduceIte, parseStringBody_escape,
    parseRecord_ws _ _ (by decide : isWs ' ' = true),
    parseRecord_dump rec0 rest]

theorem entriesTail_length_ge (es : Index) :
    es.length ≤
      (es.foldr (fun x a => ',' :: (entryChars x ++ a)) []).length := by
  induction es with
  | nil => simp
  | cons e es' ih => simp; omega

theorem parseEntriesAux_dump (es : Index) :
    ∀ (fuel : Nat) (acc : Index) (ws rest : List Char),
      es.length < fuel → (∀ c ∈ ws, isWs c = true) →
      parseEntriesAux fuel
        (es.foldr (fun x a => ',' :: (entryChars x ++ a)) [] ++
          (ws ++ rb :: rest)) acc =
      some (acc.reverse ++ es, rest) := by
  induction es with
  | nil =>
    intro fuel acc ws rest hfuel hws
    cases fuel with
    | zero => omega
    | succ fuel' =>
      rw [List.foldr_nil, List.nil_append]
      unfold parseEntriesAux
      rw [skipWs_append_ws ws _ hws,
        skipWs_cons_not _ _ (by decide : isWs rb = false)]
      simp only [if_neg (by decide : ¬ rb = ','),
        if_pos (show rb = rb from rfl)]
      simp
  | cons e es' ih =>
    intro fuel acc ws rest hfuel hws
    cases fuel with
    | zero => omega
    | succ fuel' =>
      rw [List.foldr_cons, List.cons_append, List.append_assoc]
      unfold parseEntriesAux
      rw [skipWs_cons_not _ _ (by decide : isWs ',' = false)]
      simp only [if_pos (show (',' : Char) = ',' from rfl),
        parseEntry_dump e _,
        ih fuel' (e :: acc) ws rest
          (by simp only [List.length_cons] at hfuel; omega) hws]
      simp

theorem parseEntry_eq_of_skipWs (s t : List Char)
    (h : skipWs s = skipWs t) : parseEntry s = parseEntry t := by
  unfold parseEntry
  rw [h]

theorem parseIndexTop_dumps (m : Index) :
    parseIndexTop (dumps m) = some m := by
  cases m with
  | nil => decide
  | cons e es =>
    obtain ⟨key, rec0⟩ := e
    obtain ⟨keyl⟩ := key
    have hsk : skipWs (entryChars (String.mk keyl, rec0) ++
        (es.foldr (fun x a => ',' :: (entryChars x ++ a)) [] ++
          (['\n'] ++ rb :: ([] : List Char)))) =
        '"' :: (escapeChars keyl ++
          '"' :: ':' :: ' ' :: (dumpRecord rec0 ++
            (es.foldr (fun x a => ',' :: (entryChars x ++ a)) [] ++
              (['\n'] ++ rb :: ([] : List Char))))) := by
      rw [show entryChars (String.mk keyl, rec0) ++
          (es.foldr (fun x a => ',' :: (entryChars x ++ a)) [] ++
            (['\n'] ++ rb :: ([] : List Char))) =
          '\n' :: ' ' :: ' ' ::
            ('"' :: (escapeChars keyl ++
              '"' :: ':' :: ' ' :: (dumpRecord rec0 ++
                (es.foldr (fun x a => ',' :: (entryChars x ++ a)) [] ++
                  (['\n'] ++ rb :: ([] : List Char)))))) by
        simp [entryChars, dumpStr]]
      rw [skipWs_cons_ws _ _ (by decide), skipWs_cons_ws _ _ (by decide),
        skipWs_cons_ws _ _ (by decide), skipWs_cons_not _ _ (by decide)]
    unfold parseIndexTop
    rw [show dumps ((String.mk keyl, rec0) :: es) =
        lb :: (entryChars (String.mk keyl, rec0) ++
          (es.foldr (fun x a => ',' :: (entryChars x ++ a)) [] ++
            (['\n'] ++ rb :: ([] : List Char)))) by
      simp [dumps]]
    rw [skipWs_cons_not _ _ (by decide : isWs lb = false)]
    simp only [if_pos (show lb = lb from rfl), hsk,
      if_neg (by decide : ¬ '"' = rb)]
    rw [parseEntry_eq_of_skipWs _ _ (by
      rw [hsk, skipWs_cons_not _ _ (by decide : isWs '"' = false)])]
    rw [parseEntry_dump (String.mk keyl, rec0) _]
    simp only []
    rw [parseEntriesAux_dump es _ _ ['\n'] []
      (by
        have hge := entriesTail_length_ge es
        simp only [List.length_append, List.length_cons] at hge ⊢
        omega)
      (by
        intro c hc
        fin_cases hc
        decide)]
    simp [skipWs]

/-- Claim C10: saving then loading is the identity — for every index
document (string token keys, records with the repository's persisted
field schema), `load_index` after `save_index` returns the same
mapping. -/
theorem index_round_trip (m : Index) :
    load_index (save_index m) = m := by
  unfold save_index load_index
  simp only [parseIndexTop_dumps]

end BotSpec
